import Mathlib

/-!
# Xcrypt: the `xcrypt` system call of `sys_xcrypt.c`

A shallow embedding of `src/xcrypt/sys_xcrypt.c`.

* Bytes are natural numbers, buffers are lists of bytes.
* The kernel services the module calls (VFS, kmalloc, the block cipher and the
  digest) are collaborators.  Their behaviour is a parameter `Env`: the cipher
  and digest functions, and one entry per fallible call saying whether that call
  fails.
* The file system is a map from resolved path names to inodes.  A path names at
  most one inode and distinct paths name distinct inodes (no hard links), so
  two open files have the same `i_ino` exactly when their paths are equal.
  Nothing but the call itself changes the file system while it runs.
* Every `kmalloc`/`filp_open` that succeeds is logged as `acquire`, every
  `kfree`/`filp_close` as `release`, every `vfs_write` as `write` and every
  cipher call as `transform`, in program order.
* The `goto` labels of `xcrypt` and `CopyFromUser` are functions; a label falls
  through to the next one exactly as in the source.  The body of `xcrypt` is
  cut into stages (`xcrypt.openInput`, `xcrypt.alloc`, `xcrypt.staging`,
  `xcrypt.tag`, `xcrypt.stream` with `xcrypt.loop`, `xcrypt.commit`), each
  calling the next.
* Taken for granted: the argument pointer itself is valid; `copy_from_user`
  succeeds on memory that passed `access_ok`; `getname` returns the name it is
  given; `vfs_unlink` succeeds; the `kmalloc` of `outfile`, whose result the
  source does not test, succeeds.
* `XCRYPT_AES_IV` comes from `xcipher.h`, which is not part of the sources; it
  is the field `aes_iv` of `Env`.
-/

namespace Xcrypt

abbrev Byte := Nat

/-! ## Constants -/

/-- Cipher block size of AES, `AES_BLOCK_SIZE` in `crypto/aes.h`. -/
def AES_BLOCK_SIZE : Nat := 16

/-- Transfer unit of the streaming loop, `PAGE_SIZE`. -/
def PAGE_SIZE : Nat := 4096

/-- Host path-length limit, `PATH_MAX` in `linux/limits.h`. -/
def PATH_MAX : Nat := 4096

def EPERM : Int := 1
def ENOENT : Int := 2
def EBADF : Int := 9
def ENOMEM : Int := 12
def EACCES : Int := 13
def EFAULT : Int := 14
def EISDIR : Int := 21
def EINVAL : Int := 22

/-! ## File system -/

/-- File type bits of `i_mode`: `S_ISDIR`, `S_ISREG`, or neither. -/
inductive Mode where
  | dir
  | reg
  | other
deriving DecidableEq, Repr

/-- An inode: its type, its content, and whether its `f_op` table has a
`read` and a `write` entry. -/
structure Inode where
  mode : Mode
  data : List Byte
  canRead : Bool
  canWrite : Bool
deriving DecidableEq, Repr

/-- The name space: resolved path to inode. -/
abbrev FS := String → Option Inode

/-- Bind (or with `none` unbind) one path. -/
def FS.set (fs : FS) (p : String) (n : Option Inode) : FS :=
  fun q => if q = p then n else fs q

/-- An open file, `struct file`: the dentry it was opened on, the type of its
inode, its `f_op` entries and the file position. -/
structure File where
  path : String
  mode : Mode
  canRead : Bool
  canWrite : Bool
  f_pos : Nat
deriving DecidableEq, Repr

/-! ## Resources and the event log -/

/-- The things `xcrypt` acquires, named after the variables that hold them. -/
inductive Res where
  | ker_buf
  | infile
  | outfile
  | keybuf
  | in_filp
  | read_buf
  | write_buf
  | md5_hash
  | tmp_file
  | tmp_filp
  | out_filp
deriving DecidableEq, Repr

inductive Event where
  | acquire (r : Res)
  | release (r : Res)
  | write (path : String) (bytes : List Byte)
  | transform (n : Nat)
deriving DecidableEq, Repr

structure World where
  fs : FS
  log : List Event

def World.emit (w : World) (e : Event) : World :=
  { w with log := w.log ++ [e] }

/-! ## Collaborators -/

/-- The cipher and digest primitives.  `enc key iv src` is what
`crypto_blkcipher_encrypt` leaves in the destination scatterlist after
`setkey key` and with the IV register set to `iv`; it processes exactly
`nbytes = src.length` bytes.  `digest` is `crypto_hash_digest` for md5, which
fills the 16-byte result buffer. -/
structure Prims where
  enc : List Byte → List Byte → List Byte → List Byte
  dec : List Byte → List Byte → List Byte → List Byte
  digest : List Byte → List Byte
  enc_len : ∀ k iv b, (enc k iv b).length = b.length
  dec_len : ∀ k iv b, (dec k iv b).length = b.length
  digest_len : ∀ k, (digest k).length = AES_BLOCK_SIZE

/-- Outcome of one `vfs_write`: all bytes stored, only the first `k` stored,
or a negative return `-(e+1)` with nothing stored. -/
inductive WriteRes where
  | full
  | short (k : Nat)
  | fail (e : Nat)
deriving DecidableEq, Repr

inductive OpenSite where
  | input
  | tmp
  | output
deriving DecidableEq, Repr

/-- Behaviour of the collaborators during one call of `xcrypt`.
`aes_iv` is `XCRYPT_AES_IV` of `xcipher.h`.  A read or cipher entry
`some e` makes that call return the negative value `-(e+1)`. -/
structure Env where
  P : Prims
  aes_iv : List Byte
  kmallocFails : Res → Bool
  openFails : OpenSite → Bool
  md5Fails : Bool
  tagRead : Option Nat
  tagWrite : WriteRes
  readErr : Nat → Option Nat
  cipherErr : Nat → Option Nat
  writeRes : Nat → WriteRes
  renameFails : Bool

/-! ## The request -/

/-- The `struct args` in user memory.  A pointer field is `none` when it is
NULL; `keybuf` holds the readable bytes behind the key pointer. -/
structure Args where
  infile : Option String
  outfile : Option String
  keybuf : Option (List Byte)
  keylen : Nat
  flags : Int

/-- A pointer field of the kernel copy: NULL, a non-NULL address that is not a
live kernel allocation (a user address, or memory already freed), or a live
allocation with its content. -/
inductive Ptr (α : Type) where
  | null
  | wild
  | kern (v : α)

def Ptr.get {α : Type} (d : α) : Ptr α → α
  | .kern v => v
  | _ => d

def Ptr.isNull {α : Type} : Ptr α → Bool
  | .null => true
  | _ => false

/-- The kernel copy `*ker_buf`. -/
structure KArgs where
  infile : Ptr String
  outfile : Ptr String
  keybuf : Ptr (List Byte)
  keylen : Nat
  flags : Int

/-! ## Request copy and validation (lines 23-151) -/

/-- Function `userArgsCheck`: `usr_buf` itself is a valid pointer; each later
test overwrites `err`. -/
def userArgsCheck (u : Args) : Int :=
  let err : Int := 0
  let err := match u.keybuf with
    | none => -EINVAL
    | some mem => if u.keylen ≤ mem.length then err else -EINVAL
  let err := if u.infile.isNone then -EINVAL else err
  let err := if u.outfile.isNone then -EINVAL else err
  err

def checkCharMemAlloc {α : Type} (p : Ptr α) : Int :=
  if p.isNull then -ENOMEM else 0

def checkFilePathMax (path : String) : Int :=
  if path.length > PATH_MAX then -EINVAL else 0

/-- C `strlen` on a buffer: the number of bytes before the first zero. -/
def strlen (s : List Byte) : Nat :=
  (s.takeWhile (fun b => b ≠ 0)).length

/-- C `kfree` under `if (p)`: logged when the pointer is not NULL; the field
keeps its (now dangling) value. -/
def kfreeIf {α : Type} (p : Ptr α) (r : Res) (w : World) : World :=
  if p.isNull then w else w.emit (.release r)

def userPtr {α β : Type} (o : Option α) : Ptr β :=
  match o with
  | none => .null
  | some _ => .wild

/-- Label `inputFileFail` of `CopyFromUser`. -/
def CopyFromUser.inputFileFail (err : Int) (kb : KArgs) (w : World) : Int × KArgs × World :=
  (err, kb, kfreeIf kb.infile .infile w)

/-- Label `outputFileFail` of `CopyFromUser`. -/
def CopyFromUser.outputFileFail (err : Int) (kb : KArgs) (w : World) : Int × KArgs × World :=
  CopyFromUser.inputFileFail err kb (kfreeIf kb.outfile .outfile w)

/-- Label `keybufFail` of `CopyFromUser`. -/
def CopyFromUser.keybufFail (err : Int) (kb : KArgs) (w : World) : Int × KArgs × World :=
  CopyFromUser.outputFileFail err kb (kfreeIf kb.keybuf .keybuf w)

/-- Function `CopyFromUser`; the result is `(err, *ker_buf, world)`.  Both
`copy_from_user` calls succeed, `getname` returns the name.  The `kmalloc` of
`outfile` is taken to succeed: the source tests `infile` again instead
(line 115) and would write through the NULL pointer on the next line. -/
def CopyFromUser (env : Env) (u : Args) (w : World) : Int × KArgs × World :=
  if userArgsCheck u ≠ 0 then
    (userArgsCheck u, ⟨.null, .null, .null, 0, 0⟩, w)
  else
    -- copy_from_user: the pointer fields now hold the user addresses
    let kb : KArgs := ⟨userPtr u.infile, userPtr u.outfile, userPtr u.keybuf, u.keylen, u.flags⟩
    if kb.flags ≠ 0 ∧ kb.flags ≠ 1 then (-EPERM, kb, w)
    else
      match u.infile with
      | none => (-EINVAL, kb, w)
      | some inName =>
        if checkFilePathMax inName ≠ 0 then (checkFilePathMax inName, kb, w)
        else if env.kmallocFails .infile then
          (checkCharMemAlloc (Ptr.null : Ptr String), { kb with infile := .null }, w)
        else
          let kb := { kb with infile := .kern inName }
          let w := w.emit (.acquire .infile)
          match u.outfile with
          | none => CopyFromUser.inputFileFail (-EINVAL) kb w
          | some outName =>
            if checkFilePathMax outName ≠ 0 then
              CopyFromUser.inputFileFail (checkFilePathMax outName) kb w
            else
              let kb := { kb with outfile := .kern outName }
              let w := w.emit (.acquire .outfile)
              if env.kmallocFails .keybuf then
                CopyFromUser.outputFileFail (checkCharMemAlloc (Ptr.null : Ptr (List Byte)))
                  { kb with keybuf := .null } w
              else
                let key := ((u.keybuf.getD []).take u.keylen) ++ [0]
                let kb := { kb with keybuf := .kern key }
                let w := w.emit (.acquire .keybuf)
                if strlen key < AES_BLOCK_SIZE then CopyFromUser.keybufFail (-EINVAL) kb w
                else (0, kb, w)

/-! ## Files (lines 159-287) -/

/-- Function `check_file`. -/
def check_file (filp : File) : Int :=
  if filp.mode = .dir then -EISDIR
  else if filp.mode ≠ .reg then -EPERM
  else 0

/-- Kernel `filp_open`; `none` is an `ERR_PTR` result (the kernel never returns
NULL here).  It fails when the collaborator says so, when the path does not
exist and `O_CREAT` is absent, or when a directory is opened for writing.
`O_CREAT` makes a missing path an empty regular file; `O_TRUNC` empties an
existing regular file. -/
def filp_open (env : Env) (site : OpenSite) (name : String) (wronly creat trunc : Bool)
    (w : World) : Option File × World :=
  if env.openFails site then (none, w)
  else
    match w.fs name with
    | none =>
      if creat then
        (some ⟨name, .reg, true, true, 0⟩,
          { w with fs := w.fs.set name (some ⟨.reg, [], true, true⟩) })
      else (none, w)
    | some n =>
      if wronly = true ∧ n.mode = .dir then (none, w)
      else if trunc = true ∧ n.mode = .reg then
        (some ⟨name, n.mode, n.canRead, n.canWrite, 0⟩,
          { w with fs := w.fs.set name (some { n with data := [] }) })
      else (some ⟨name, n.mode, n.canRead, n.canWrite, 0⟩, w)

/-- Function `open_Input_File`; the result is `(filp, *err, world)`.  The
`!filp` test of the source never fires.  On the `-EACCES` exit the opened file
is dropped without `filp_close`. -/
def open_Input_File (env : Env) (filename : Ptr String) (err : Int) (w : World) :
    Option File × Int × World :=
  match filename with
  | .null => (none, -EBADF, w)
  | .wild => (none, -EPERM, w)
  | .kern name =>
    let r := filp_open env .input name false false false w
    match r.1 with
    | none => (none, -EPERM, r.2)
    | some filp =>
      let w := r.2.emit (.acquire .in_filp)
      if filp.canRead = false then (none, -EACCES, w)
      else (some { filp with f_pos := 0 }, err, w)

/-- Function `open_output_file`; `flags = 0` opens the temp file
(`O_WRONLY | O_CREAT | O_TRUNC`), any other value the output file
(`O_WRONLY | O_CREAT`).  The `mode` argument, the permission bits a created
file gets, has no counterpart here. -/
def open_output_file (env : Env) (filename : Ptr String) (err : Int) (flags : Int)
    (w : World) : Option File × Int × World :=
  match filename with
  | .null => (none, -EBADF, w)
  | .wild => (none, -EPERM, w)
  | .kern name =>
    let r :=
      if flags = 0 then filp_open env .tmp name true true true w
      else filp_open env .output name true true false w
    match r.1 with
    | none => (none, -EPERM, r.2)
    | some filp =>
      let w := r.2.emit (.acquire (if flags = 0 then Res.tmp_filp else Res.out_filp))
      if filp.canWrite = false then (none, -EACCES, w)
      else (some { filp with f_pos := 0 }, err, w)

/-- Function `read_input_file` (`vfs_read` at `f_pos`): the bytes read are
those from `f_pos` on, at most `len`; the result is
`(bytes, buffer, filp)`. -/
def read_input_file (fault : Option Nat) (filp : File) (len : Nat) (w : World) :
    Int × List Byte × File :=
  match fault with
  | some e => (-((e : Int) + 1), [], filp)
  | none =>
    let data := match w.fs filp.path with
      | some n => n.data
      | none => []
    let buf := (data.drop filp.f_pos).take len
    ((buf.length : Int), buf, { filp with f_pos := filp.f_pos + buf.length })

/-- Content of a file after `bytes` are stored at offset `pos`. -/
def writeAt (data : List Byte) (pos : Nat) (bytes : List Byte) : List Byte :=
  data.take pos ++ List.replicate (pos - data.length) 0 ++ bytes ++ data.drop (pos + bytes.length)

/-- Kernel `vfs_write` storing `bytes` at `f_pos`. -/
def vfs_store (filp : File) (bytes : List Byte) (w : World) : Int × File × World :=
  let fs := match w.fs filp.path with
    | some n => w.fs.set filp.path (some { n with data := writeAt n.data filp.f_pos bytes })
    | none => w.fs
  ((bytes.length : Int), { filp with f_pos := filp.f_pos + bytes.length },
    { fs := fs, log := w.log ++ [.write filp.path bytes] })

/-- Function `write_output_file`; `buf` is the first `size` bytes of the
buffer, the result is `(bytes, filp, world)`. -/
def write_output_file (res : WriteRes) (filp : File) (buf : List Byte) (w : World) :
    Int × File × World :=
  match res with
  | .fail e => (-((e : Int) + 1), filp, w)
  | .full => vfs_store filp buf w
  | .short k => vfs_store filp (buf.take k) w

/-! ## Cipher and digest (lines 304-424) -/

/-- Function `xcrypt_aes_encrypt` on the `i`-th chunk: the key is the first
`key_len` bytes of the key buffer, the IV is reset to `aes_iv`. -/
def xcrypt_aes_encrypt (env : Env) (i : Nat) (key : List Byte) (key_len : Nat)
    (src_buf : List Byte) : Int × List Byte :=
  match env.cipherErr i with
  | some e => (-((e : Int) + 1), [])
  | none => (0, env.P.enc (key.take key_len) env.aes_iv src_buf)

/-- Function `xcrypt_aes_decrypt`. -/
def xcrypt_aes_decrypt (env : Env) (i : Nat) (key : List Byte) (key_len : Nat)
    (src_buf : List Byte) : Int × List Byte :=
  match env.cipherErr i with
  | some e => (-((e : Int) + 1), [])
  | none => (0, env.P.dec (key.take key_len) env.aes_iv src_buf)

/-- Function `calculate_md5_hash`.  The scatterlist is set over the first
`keylen` bytes of the key buffer, and `crypto_hash_digest` is called with
`nbytes = 1` (line 417): the digest is taken over the first of these bytes
only. -/
def calculate_md5_hash (env : Env) (inp_key : List Byte) (keylen : Nat) : Int × List Byte :=
  if env.md5Fails then (-EFAULT, [])
  else (0, env.P.digest ((inp_key.take keylen).take 1))

/-! ## Rename (lines 432-455) -/

def vfs_unlink (path : String) (w : World) : World :=
  { w with fs := w.fs.set path none }

def vfs_rename (old new : String) (w : World) : World :=
  { w with fs := (w.fs.set new (w.fs old)).set old none }

/-- Function `file_rename`. -/
def file_rename (env : Env) (tmp_filp out_filp : Option File) (w : World) : Int × World :=
  match tmp_filp, out_filp with
  | some t, some o =>
    if t.path = o.path then (-EPERM, w)
    else if env.renameFails then (-EACCES, vfs_unlink t.path w)
    else (0, vfs_rename t.path o.path w)
  | _, _ => (-EINVAL, w)

/-! ## The system call (lines 466-657) -/

/-- Local variables of `xcrypt` that the cleanup labels look at. -/
structure Locals where
  kb : KArgs
  in_filp : Option File
  tmp_filp : Option File
  out_filp : Option File
  tmp_err_flag : Bool

/-- Label `copyFail`, falling through to `endReturn`. -/
def copyFail (L : Locals) (ret : Int) (w : World) : Int × World :=
  let w := kfreeIf L.kb.infile .infile w
  let w := kfreeIf L.kb.outfile .outfile w
  let w := kfreeIf L.kb.keybuf .keybuf w
  (ret, w.emit (.release .ker_buf))

/-- Label `closeInputFile`. -/
def closeInputFile (L : Locals) (ret : Int) (w : World) : Int × World :=
  copyFail L ret (if L.in_filp.isSome then w.emit (.release .in_filp) else w)

/-- Label `freeReadBuf`. -/
def freeReadBuf (L : Locals) (ret : Int) (w : World) : Int × World :=
  closeInputFile L ret (w.emit (.release .read_buf))

/-- Label `freewritebuf`. -/
def freewritebuf (L : Locals) (ret : Int) (w : World) : Int × World :=
  freeReadBuf L ret (w.emit (.release .write_buf))

/-- Label `freemd5hash`. -/
def freemd5hash (L : Locals) (ret : Int) (w : World) : Int × World :=
  freewritebuf L ret (w.emit (.release .md5_hash))

/-- Label `freetmpfilename`. -/
def freetmpfilename (L : Locals) (ret : Int) (w : World) : Int × World :=
  freemd5hash L ret (w.emit (.release .tmp_file))

/-- Label `closeTmpFile`: unlink the temp file when `tmp_err_flag` is set, then
close it. -/
def closeTmpFile (L : Locals) (ret : Int) (w : World) : Int × World :=
  let w := match L.tmp_filp with
    | some t => if L.tmp_err_flag then vfs_unlink t.path w else w
    | none => w
  freetmpfilename L ret (if L.tmp_filp.isSome then w.emit (.release .tmp_filp) else w)

/-- Label `closeOutputFile`. -/
def closeOutputFile (L : Locals) (ret : Int) (w : World) : Int × World :=
  closeTmpFile L ret (if L.out_filp.isSome then w.emit (.release .out_filp) else w)

/-- Lines 597-619: open the output file, the guards, the rename. -/
def xcrypt.commit (env : Env) (L : Locals) (inF : File) (ret : Int) (w : World) : Int × World :=
  let r := open_output_file env L.kb.outfile ret 1 w
  match r.1 with
  | none =>
    if r.2.1 = -EACCES then closeOutputFile { L with tmp_err_flag := true } r.2.1 r.2.2
    else closeTmpFile { L with tmp_err_flag := true } r.2.1 r.2.2
  | some o =>
    let L := { L with out_filp := some o }
    -- ret = check_file(out_filp) != 0
    let ret : Int := if check_file o ≠ 0 then 1 else 0
    if ret ≠ 0 then closeOutputFile L ret r.2.2
    else if inF.path = o.path then closeOutputFile { L with tmp_err_flag := true } (-EPERM) r.2.2
    else if check_file inF ≠ 0 then closeOutputFile L (check_file inF) r.2.2
    else
      let rn := file_rename env L.tmp_filp (some o) r.2.2
      closeOutputFile L rn.1 rn.2

/-- Result of the streaming loop: it ran to the end (a read returned a value
that is not positive), or it left through a `goto closeTmpFile`. -/
inductive LoopOut where
  | done (ret : Int) (w : World)
  | fail (ret : Int) (w : World)

/-- Lines 573-595, the `while` loop; `i` counts the iterations so far.  The
first argument bounds the number of iterations that remain. -/
def xcrypt.loop (env : Env) (kb : KArgs) : Nat → Nat → File → File → Int → World → LoopOut
  | 0, _, _, _, ret, w => .done ret w
  | fuel + 1, i, inF, tmpF, ret, w =>
    let rd := read_input_file (env.readErr i) inF PAGE_SIZE w
    if rd.1 > 0 then
      let c : Option (Int × List Byte) :=
        if kb.flags = 1 then
          some (xcrypt_aes_encrypt env i (kb.keybuf.get []) AES_BLOCK_SIZE rd.2.1)
        else if kb.flags = 0 then
          some (xcrypt_aes_decrypt env i (kb.keybuf.get []) AES_BLOCK_SIZE rd.2.1)
        else none
      match c with
      | none => .fail (-EINVAL) w
      | some c =>
        let w := w.emit (.transform rd.2.1.length)
        if c.1 < 0 then .fail (-EFAULT) w
        else
          let wr := write_output_file (env.writeRes i) tmpF c.2 w
          if wr.1 = 0 then .fail (-EINVAL) wr.2.2
          else xcrypt.loop env kb fuel (i + 1) rd.2.2 wr.2.1 c.1 wr.2.2
    else .done ret w

/-- Bytes of the input file that are still unread. -/
def remaining (inF : File) (w : World) : Nat :=
  match w.fs inF.path with
  | some n => n.data.length - inF.f_pos
  | none => 0

/-- Lines 573-595 followed by the commit.  Every iteration consumes at
least one unread byte, so `remaining + 1` iterations are enough. -/
def xcrypt.stream (env : Env) (L : Locals) (inF tmpF : File) (ret : Int) (w : World) :
    Int × World :=
  match xcrypt.loop env L.kb (remaining inF w + 1) 0 inF tmpF ret w with
  | .fail ret w => closeTmpFile { L with tmp_err_flag := true } ret w
  | .done ret w => xcrypt.commit env L inF ret w

/-- Lines 540-571: the key tag is written (encryption) or read and compared
(decryption). -/
def xcrypt.tag (env : Env) (L : Locals) (inF tmpF : File) (w : World) : Int × World :=
  let h := calculate_md5_hash env (L.kb.keybuf.get []) L.kb.keylen
  if h.1 ≠ 0 then closeTmpFile { L with tmp_err_flag := true } (-EFAULT) w
  else if L.kb.flags = 1 then
    let wr := write_output_file env.tagWrite tmpF h.2 w
    if wr.1 ≠ (AES_BLOCK_SIZE : Int) then
      closeTmpFile { L with tmp_err_flag := true } (-EFAULT) wr.2.2
    else xcrypt.stream env L inF wr.2.1 h.1 wr.2.2
  else if L.kb.flags = 0 then
    let rd := read_input_file env.tagRead inF AES_BLOCK_SIZE w
    if rd.1 ≠ (AES_BLOCK_SIZE : Int) then
      closeTmpFile { L with tmp_err_flag := true } (-EFAULT) w
    else if rd.2.1.take AES_BLOCK_SIZE ≠ h.2.take AES_BLOCK_SIZE then
      closeTmpFile { L with tmp_err_flag := true } (-EPERM) w
    else xcrypt.stream env L rd.2.2 tmpF h.1 w
  else closeTmpFile { L with tmp_err_flag := true } (-EINVAL) w

/-- Lines 522-538: name, length check and open of the temp file. -/
def xcrypt.staging (env : Env) (L : Locals) (inF : File) (w : World) : Int × World :=
  let tmp_file := L.kb.infile.get "" ++ ".tmp"
  if checkFilePathMax tmp_file ≠ 0 then freetmpfilename L (checkFilePathMax tmp_file) w
  else
    -- ret is 0 here, the value checkFilePathMax has just returned
    let r := open_output_file env (.kern tmp_file) 0 0 w
    match r.1 with
    | none =>
      if r.2.1 = -EACCES then closeTmpFile L r.2.1 r.2.2
      else freetmpfilename L r.2.1 r.2.2
    | some t =>
      let L := { L with tmp_filp := some t }
      -- ret = check_file(tmp_filp) != 0
      let ret : Int := if check_file t ≠ 0 then 1 else 0
      if ret ≠ 0 then freetmpfilename L ret r.2.2
      else xcrypt.tag env L inF t r.2.2

/-- Lines 500-521: the four buffers. -/
def xcrypt.alloc (env : Env) (L : Locals) (inF : File) (w : World) : Int × World :=
  if env.kmallocFails .read_buf then closeInputFile L (-ENOMEM) w
  else
    let w := w.emit (.acquire .read_buf)
    if env.kmallocFails .write_buf then freeReadBuf L (-ENOMEM) w
    else
      let w := w.emit (.acquire .write_buf)
      if env.kmallocFails .md5_hash then freewritebuf L (-ENOMEM) w
      else
        let w := w.emit (.acquire .md5_hash)
        if env.kmallocFails .tmp_file then freemd5hash L (-ENOMEM) w
        else
          let w := w.emit (.acquire .tmp_file)
          -- ret = check_file(in_filp) != 0
          let ret : Int := if check_file inF ≠ 0 then 1 else 0
          if ret ≠ 0 then freetmpfilename L ret w
          else xcrypt.staging env L inF w

/-- Lines 488-499: open and check the input file. -/
def xcrypt.openInput (env : Env) (L : Locals) (ret : Int) (w : World) : Int × World :=
  let r := open_Input_File env L.kb.infile ret w
  match r.1 with
  | none =>
    if r.2.1 = -EACCES then closeInputFile L r.2.1 r.2.2
    else copyFail L r.2.1 r.2.2
  | some inF =>
    if check_file inF ≠ 0 then
      closeInputFile { L with in_filp := some inF } (check_file inF) r.2.2
    else xcrypt.alloc env { L with in_filp := some inF } inF r.2.2

/-- Function `xcrypt`: the value returned and the world it leaves. -/
def xcrypt (env : Env) (arg : Args) (w : World) : Int × World :=
  if env.kmallocFails .ker_buf then (-ENOMEM, w)
  else
    let c := CopyFromUser env arg (w.emit (.acquire .ker_buf))
    if c.1 ≠ 0 then copyFail ⟨c.2.1, none, none, none, false⟩ c.1 c.2.2
    else xcrypt.openInput env ⟨c.2.1, none, none, none, false⟩ c.1 c.2.2

/-! ## Vocabulary of the properties -/

/-- No collaborator call fails: every allocation and open succeeds, the digest
and the cipher succeed, no read returns an error, every write stores all its
bytes, the rename succeeds. -/
structure NoFault (env : Env) : Prop where
  kmalloc : ∀ r, env.kmallocFails r = false
  opens : ∀ s, env.openFails s = false
  md5 : env.md5Fails = false
  tagRead : env.tagRead = none
  tagWrite : env.tagWrite = .full
  reads : ∀ i, env.readErr i = none
  cipher : ∀ i, env.cipherErr i = none
  writes : ∀ i, env.writeRes i = .full
  rename : env.renameFails = false

/-- The path is free, or names a regular file with both `f_op` entries. -/
def Usable (fs : FS) (p : String) : Prop :=
  ∀ n, fs p = some n → n.mode = .reg ∧ n.canRead = true ∧ n.canWrite = true

/-- The events that touch payload bytes: writes and cipher calls. -/
def Event.isPayload : Event → Bool
  | .write _ _ => true
  | .transform _ => true
  | _ => false

def payloadEvents (log : List Event) : List Event :=
  log.filter Event.isPayload

/-- The events that open a file. -/
def Event.isOpen : Event → Bool
  | .acquire .in_filp => true
  | .acquire .tmp_filp => true
  | .acquire .out_filp => true
  | _ => false

def openEvents (log : List Event) : List Event :=
  log.filter Event.isOpen

/-- The request `a` names the paths `src` and `dst` and the key memory `mem`,
and passes every test of `CopyFromUser`. -/
structure Accepted (env : Env) (a : Args) (src dst : String) (mem : List Byte) : Prop where
  infile : a.infile = some src
  outfile : a.outfile = some dst
  keybuf : a.keybuf = some mem
  readable : a.keylen ≤ mem.length
  flags : a.flags = 0 ∨ a.flags = 1
  srcLen : src.length ≤ PATH_MAX
  dstLen : dst.length ≤ PATH_MAX
  keyStr : AES_BLOCK_SIZE ≤ strlen (mem.take a.keylen ++ [0])
  allocIn : env.kmallocFails .infile = false
  allocKey : env.kmallocFails .keybuf = false

/-- The bytes one `PAGE_SIZE` read returns at offset `pos` of `data`. -/
def unitAt (data : List Byte) (pos : Nat) : List Byte :=
  (data.drop pos).take PAGE_SIZE

/-- The open file that `filp_open` returns for the inode `n` at `path`. -/
def opened (path : String) (n : Inode) : File :=
  ⟨path, n.mode, n.canRead, n.canWrite, 0⟩

/-- The kernel copy of an accepted request. -/
def kargs (a : Args) (src dst : String) (mem : List Byte) : KArgs :=
  ⟨.kern src, .kern dst, .kern (mem.take a.keylen ++ [0]), a.keylen, a.flags⟩

/-- Spec side (section 6, transfer unit): the successive transfer units of a
payload, `n` bytes each, the last one possibly shorter, none empty.  The
first argument bounds the number of units. -/
def unitsAux (n : Nat) : Nat → List Byte → List (List Byte)
  | 0, _ => []
  | fuel + 1, l => if l = [] then [] else l.take n :: unitsAux n fuel (l.drop n)

/-- Spec side: the transfer units of `l` for unit size `n`. -/
def units (n : Nat) (l : List Byte) : List (List Byte) :=
  unitsAux n l.length l

/-- Spec side (section 4.4, Streaming): a chunk transform applied unit by unit,
the results concatenated. -/
def transformUnits (f : List Byte → List Byte) (l : List Byte) : List Byte :=
  ((units PAGE_SIZE l).map f).flatten

/-- Spec side (section 4.2, `transform_chunk`): the cipher applied to one
buffer, encryption when `flags = 1`, otherwise decryption, keyed with the
first `AES_BLOCK_SIZE` key bytes, the IV being `aes_iv` on every call. -/
def transform_chunk (env : Env) (flags : Int) (key : List Byte) (c : List Byte) : List Byte :=
  if flags = 1 then env.P.enc (key.take AES_BLOCK_SIZE) env.aes_iv c
  else env.P.dec (key.take AES_BLOCK_SIZE) env.aes_iv c

/-- Spec side (section 4.1, `compute_tag`): the digest of the raw key bytes. -/
def compute_tag (env : Env) (key : List Byte) : List Byte :=
  env.P.digest key

/-- The request to encrypt `src` into `dst` with the `keylen` key bytes at `mem`. -/
def encryptRequest (src dst : String) (mem : List Byte) (keylen : Nat) : Args :=
  ⟨some src, some dst, some mem, keylen, 1⟩

/-- The request to decrypt `src` into `dst` with the `keylen` key bytes at `mem`. -/
def decryptRequest (src dst : String) (mem : List Byte) (keylen : Nat) : Args :=
  ⟨some src, some dst, some mem, keylen, 0⟩

/-- The bytes that the loop of lines 573-595 appends to the temp file when it
runs to its end, for any behaviour of the collaborators: `f` is the chunk
transform, `data` the content of the input file, then the bound on the
iterations, the iteration count and the read offset.  A failing read ends the
loop, a failing write stores nothing, an incomplete write stores the first
`k` bytes. -/
def stored (env : Env) (f : List Byte → List Byte) (data : List Byte) :
    Nat → Nat → Nat → List Byte
  | 0, _, _ => []
  | fuel + 1, i, pos =>
    match env.readErr i with
    | some _ => []
    | none =>
      if unitAt data pos = [] then []
      else
        (match env.writeRes i with
          | .full => f (unitAt data pos)
          | .short k => (f (unitAt data pos)).take k
          | .fail _ => [])
          ++ stored env f data fuel (i + 1) (pos + (unitAt data pos).length)

/-! ## A small concrete instance -/

namespace Demo

/-- A stand-in cipher (xor with a byte derived from key and IV) and digest. -/
def prims : Prims where
  enc k iv b := b.map (fun x => x ^^^ (k.sum + iv.sum))
  dec k iv b := b.map (fun x => x ^^^ (k.sum + iv.sum))
  digest k := (List.range 16).map (fun i => (3 * k.sum + i * k.length + 7) % 256)
  enc_len := by intros; simp
  dec_len := by intros; simp
  digest_len := by intros; simp [AES_BLOCK_SIZE]

/-- Collaborators that never fail. -/
def env : Env :=
  { P := prims, aes_iv := [1, 2, 3], kmallocFails := fun _ => false,
    openFails := fun _ => false, md5Fails := false, tagRead := none, tagWrite := .full,
    readErr := fun _ => none, cipherErr := fun _ => none, writeRes := fun _ => .full,
    renameFails := false }

/-- Regular file `a` of three bytes, character device `dev`, regular file
`old`, and `enc`, which is what the encryption of `a` under `key` produces:
the digest of the first key byte, then the three cipher bytes. -/
def fs : FS := fun p =>
  if p = "a" then some ⟨.reg, [10, 20, 30], true, true⟩
  else if p = "dev" then some ⟨.other, [], true, true⟩
  else if p = "old" then some ⟨.reg, [7, 7], true, true⟩
  else if p = "enc" then
    some ⟨.reg, [10, 11, 12, 13, 14, 15, 16, 17, 18, 19, 20, 21, 22, 23, 24, 25,
      132, 154, 144], true, true⟩
  else if p = "enc.tmp" then some ⟨.reg, [5, 5, 5], true, true⟩
  else none

def world : World := ⟨fs, []⟩

def key : List Byte := [1, 2, 3, 4, 5, 6, 7, 8, 9, 10, 11, 12, 13, 14, 15, 16]

def key2 : List Byte := [2, 2, 3, 4, 5, 6, 7, 8, 9, 10, 11, 12, 13, 14, 15, 16]

/-- A key that differs from `key` in its second byte only. -/
def key3 : List Byte := [1, 3, 3, 4, 5, 6, 7, 8, 9, 10, 11, 12, 13, 14, 15, 16]

def request (src dst : String) (k : List Byte) (flags : Int) : Args :=
  ⟨some src, some dst, some k, k.length, flags⟩

end Demo

/-! ## Basic facts -/

@[simp] theorem emit_fs (w : World) (e : Event) : (w.emit e).fs = w.fs := rfl

@[simp] theorem emit_log (w : World) (e : Event) : (w.emit e).log = w.log ++ [e] := rfl

@[simp] theorem set_same (fs : FS) (p : String) (n : Option Inode) : fs.set p n p = n := by
  simp [FS.set]

theorem set_other (fs : FS) {p q : String} (n : Option Inode) (h : q ≠ p) :
    fs.set p n q = fs q := by
  simp [FS.set, h]

@[simp] theorem payloadEvents_append (l₁ l₂ : List Event) :
    payloadEvents (l₁ ++ l₂) = payloadEvents l₁ ++ payloadEvents l₂ := by
  simp [payloadEvents]

@[simp] theorem payloadEvents_nil : payloadEvents [] = [] := rfl

@[simp] theorem payloadEvents_acquire (r : Res) (l : List Event) :
    payloadEvents (.acquire r :: l) = payloadEvents l := rfl

@[simp] theorem payloadEvents_release (r : Res) (l : List Event) :
    payloadEvents (.release r :: l) = payloadEvents l := rfl

@[simp] theorem payloadEvents_write (p : String) (b : List Byte) (l : List Event) :
    payloadEvents (.write p b :: l) = .write p b :: payloadEvents l := rfl

@[simp] theorem payloadEvents_transform (n : Nat) (l : List Event) :
    payloadEvents (.transform n :: l) = .transform n :: payloadEvents l := rfl

@[simp] theorem kfreeIf_fs {α : Type} (p : Ptr α) (r : Res) (w : World) :
    (kfreeIf p r w).fs = w.fs := by
  unfold kfreeIf; split <;> rfl

@[simp] theorem kfreeIf_payload {α : Type} (p : Ptr α) (r : Res) (w : World) :
    payloadEvents (kfreeIf p r w).log = payloadEvents w.log := by
  unfold kfreeIf; split <;> simp

/-! ### The cleanup labels pass the return value through -/

@[simp] theorem copyFail_fst (L : Locals) (ret : Int) (w : World) : (copyFail L ret w).1 = ret := rfl

@[simp] theorem closeInputFile_fst (L : Locals) (ret : Int) (w : World) :
    (closeInputFile L ret w).1 = ret := rfl

@[simp] theorem freeReadBuf_fst (L : Locals) (ret : Int) (w : World) :
    (freeReadBuf L ret w).1 = ret := rfl

@[simp] theorem freewritebuf_fst (L : Locals) (ret : Int) (w : World) :
    (freewritebuf L ret w).1 = ret := rfl

@[simp] theorem freemd5hash_fst (L : Locals) (ret : Int) (w : World) :
    (freemd5hash L ret w).1 = ret := rfl

@[simp] theorem freetmpfilename_fst (L : Locals) (ret : Int) (w : World) :
    (freetmpfilename L ret w).1 = ret := rfl

@[simp] theorem closeTmpFile_fst (L : Locals) (ret : Int) (w : World) :
    (closeTmpFile L ret w).1 = ret := rfl

@[simp] theorem closeOutputFile_fst (L : Locals) (ret : Int) (w : World) :
    (closeOutputFile L ret w).1 = ret := rfl

/-! ### The cleanup labels and the file system -/

@[simp] theorem copyFail_fs (L : Locals) (ret : Int) (w : World) :
    (copyFail L ret w).2.fs = w.fs := by
  simp [copyFail]

@[simp] theorem closeInputFile_fs (L : Locals) (ret : Int) (w : World) :
    (closeInputFile L ret w).2.fs = w.fs := by
  unfold closeInputFile; split <;> simp

@[simp] theorem freeReadBuf_fs (L : Locals) (ret : Int) (w : World) :
    (freeReadBuf L ret w).2.fs = w.fs := by
  simp [freeReadBuf]

@[simp] theorem freewritebuf_fs (L : Locals) (ret : Int) (w : World) :
    (freewritebuf L ret w).2.fs = w.fs := by
  simp [freewritebuf]

@[simp] theorem freemd5hash_fs (L : Locals) (ret : Int) (w : World) :
    (freemd5hash L ret w).2.fs = w.fs := by
  simp [freemd5hash]

@[simp] theorem freetmpfilename_fs (L : Locals) (ret : Int) (w : World) :
    (freetmpfilename L ret w).2.fs = w.fs := by
  simp [freetmpfilename]

theorem closeTmpFile_fs_keep (L : Locals) (ret : Int) (w : World) (h : L.tmp_err_flag = false) :
    (closeTmpFile L ret w).2.fs = w.fs := by
  unfold closeTmpFile
  cases ht : L.tmp_filp <;> simp [h]

theorem closeOutputFile_fs_keep (L : Locals) (ret : Int) (w : World) (h : L.tmp_err_flag = false) :
    (closeOutputFile L ret w).2.fs = w.fs := by
  unfold closeOutputFile
  rw [closeTmpFile_fs_keep _ _ _ h]
  split <;> simp

@[simp] theorem copyFail_payload (L : Locals) (ret : Int) (w : World) :
    payloadEvents (copyFail L ret w).2.log = payloadEvents w.log := by
  simp [copyFail]

@[simp] theorem closeInputFile_payload (L : Locals) (ret : Int) (w : World) :
    payloadEvents (closeInputFile L ret w).2.log = payloadEvents w.log := by
  unfold closeInputFile; split <;> simp

@[simp] theorem freetmpfilename_payload (L : Locals) (ret : Int) (w : World) :
    payloadEvents (freetmpfilename L ret w).2.log = payloadEvents w.log := by
  simp only [freetmpfilename, freemd5hash, freewritebuf, freeReadBuf, closeInputFile_payload,
    emit_log, payloadEvents_append, payloadEvents_release, payloadEvents_nil, List.append_nil]

@[simp] theorem closeTmpFile_payload (L : Locals) (ret : Int) (w : World) :
    payloadEvents (closeTmpFile L ret w).2.log = payloadEvents w.log := by
  unfold closeTmpFile
  cases ht : L.tmp_filp <;> cases hf : L.tmp_err_flag <;> simp [vfs_unlink]

@[simp] theorem closeOutputFile_payload (L : Locals) (ret : Int) (w : World) :
    payloadEvents (closeOutputFile L ret w).2.log = payloadEvents w.log := by
  unfold closeOutputFile
  rw [closeTmpFile_payload]
  split <;> simp

/-! ### C strings -/

theorem strlen_append_zero (l : List Byte) : strlen (l ++ [0]) = strlen l := by
  unfold strlen
  induction l with
  | nil => simp
  | cons b t ih =>
    by_cases hb : b = 0
    · simp [List.takeWhile_cons, hb]
    · simpa [List.takeWhile_cons, hb] using ih

/-- A buffer has at least `n` bytes before its first zero exactly when it has
at least `n` bytes and none of its first `n` bytes is zero. -/
theorem le_strlen_iff (n : Nat) (l : List Byte) :
    n ≤ strlen l ↔ n ≤ l.length ∧ ∀ b ∈ l.take n, b ≠ 0 := by
  unfold strlen
  induction l generalizing n with
  | nil => cases n <;> simp
  | cons b t ih =>
    cases n with
    | zero => simp
    | succ m =>
      by_cases hb : b = 0
      · simp [List.takeWhile_cons, hb]
      · simpa [List.takeWhile_cons, hb] using ih m

/-! ## Request validation -/

@[simp] theorem openEvents_append (l₁ l₂ : List Event) :
    openEvents (l₁ ++ l₂) = openEvents l₁ ++ openEvents l₂ := by
  simp [openEvents]

@[simp] theorem openEvents_nil : openEvents [] = [] := rfl

@[simp] theorem openEvents_release (r : Res) (l : List Event) :
    openEvents (.release r :: l) = openEvents l := rfl

theorem openEvents_closed {e : Event} (l : List Event) (h : e.isOpen = false) :
    openEvents (e :: l) = openEvents l := by
  simp [openEvents, h]

@[simp] theorem kfreeIf_opens {α : Type} (p : Ptr α) (r : Res) (w : World) :
    openEvents (kfreeIf p r w).log = openEvents w.log := by
  unfold kfreeIf; split <;> simp

@[simp] theorem copyFail_opens (L : Locals) (ret : Int) (w : World) :
    openEvents (copyFail L ret w).2.log = openEvents w.log := by
  simp [copyFail]

theorem CopyFromUser_fs (env : Env) (a : Args) (w : World) :
    (CopyFromUser env a w).2.2.fs = w.fs := by
  rcases a with ⟨_ | src, _ | dst, key, keylen, flags⟩ <;>
    simp only [CopyFromUser, CopyFromUser.keybufFail, CopyFromUser.outputFileFail,
      CopyFromUser.inputFileFail] <;>
    split_ifs <;> simp

theorem CopyFromUser_opens (env : Env) (a : Args) (w : World) :
    openEvents (CopyFromUser env a w).2.2.log = openEvents w.log := by
  rcases a with ⟨_ | src, _ | dst, key, keylen, flags⟩ <;>
    simp only [CopyFromUser, CopyFromUser.keybufFail, CopyFromUser.outputFileFail,
      CopyFromUser.inputFileFail] <;>
    split_ifs <;> simp [openEvents_closed, Event.isOpen]

theorem CopyFromUser_payload (env : Env) (a : Args) (w : World) :
    payloadEvents (CopyFromUser env a w).2.2.log = payloadEvents w.log := by
  rcases a with ⟨_ | src, _ | dst, key, keylen, flags⟩ <;>
    simp only [CopyFromUser, CopyFromUser.keybufFail, CopyFromUser.outputFileFail,
      CopyFromUser.inputFileFail] <;>
    split_ifs <;> simp

/-- An accepted request is copied: the result is 0 and the three buffers are
allocated. -/
theorem CopyFromUser_accepted {env : Env} {a : Args} {src dst : String} {mem : List Byte}
    (h : Accepted env a src dst mem) (w : World) :
    CopyFromUser env a w
      = (0, kargs a src dst mem,
          ((w.emit (.acquire .infile)).emit (.acquire .outfile)).emit (.acquire .keybuf)) := by
  have hf : ¬ (a.flags ≠ 0 ∧ a.flags ≠ 1) := by
    rcases h.flags with h0 | h1
    · simp [h0]
    · simp [h1]
  have h1 : ¬ PATH_MAX < src.length := Nat.not_lt.mpr h.srcLen
  have h2 : ¬ PATH_MAX < dst.length := Nat.not_lt.mpr h.dstLen
  have h3 : ¬ strlen (mem.take a.keylen ++ [0]) < AES_BLOCK_SIZE := Nat.not_lt.mpr h.keyStr
  simp [CopyFromUser, userArgsCheck, h.infile, h.outfile, h.keybuf, h.readable, hf,
    checkFilePathMax, h1, h2, h3, h.allocIn, h.allocKey, kargs]

/-- The value of `CopyFromUser` on a request with three non-NULL pointers and
readable key memory, when the two checked allocations succeed. -/
theorem CopyFromUser_code (env : Env) (w : World) (src dst : String) (mem : List Byte)
    (keylen : Nat) (flags : Int) (hmem : keylen ≤ mem.length)
    (hin : env.kmallocFails .infile = false) (hkey : env.kmallocFails .keybuf = false) :
    (CopyFromUser env ⟨some src, some dst, some mem, keylen, flags⟩ w).1 =
      if flags ≠ 0 ∧ flags ≠ 1 then -EPERM
      else if PATH_MAX < src.length ∨ PATH_MAX < dst.length
          ∨ strlen (mem.take keylen ++ [0]) < AES_BLOCK_SIZE then -EINVAL
      else 0 := by
  by_cases hf : flags ≠ 0 ∧ flags ≠ 1
  · simp [CopyFromUser, userArgsCheck, hmem, hf]
  · by_cases h1 : PATH_MAX < src.length
    · simp [CopyFromUser, userArgsCheck, hmem, hf, checkFilePathMax, h1, EINVAL]
    · by_cases h2 : PATH_MAX < dst.length
      · simp [CopyFromUser, userArgsCheck, hmem, hf, checkFilePathMax, h1, h2, hin,
          CopyFromUser.inputFileFail, EINVAL]
      · by_cases h3 : strlen (mem.take keylen ++ [0]) < AES_BLOCK_SIZE
        · simp [CopyFromUser, userArgsCheck, hmem, hf, checkFilePathMax, h1, h2, h3, hin, hkey,
            CopyFromUser.inputFileFail, CopyFromUser.outputFileFail, CopyFromUser.keybufFail]
        · simp [CopyFromUser, userArgsCheck, hmem, hf, checkFilePathMax, h1, h2, h3, hin, hkey]

/-- The key buffer, read as a C string, is shorter than a cipher block exactly
when `keylen` is, or when one of the first 16 key bytes is zero. -/
theorem key_short_iff (mem : List Byte) (keylen : Nat) (hmem : keylen ≤ mem.length) :
    strlen (mem.take keylen ++ [0]) < AES_BLOCK_SIZE ↔
      keylen < AES_BLOCK_SIZE ∨ ∃ b ∈ mem.take AES_BLOCK_SIZE, b = 0 := by
  rw [strlen_append_zero, ← Nat.not_le, le_strlen_iff]
  have hlen : (mem.take keylen).length = keylen := by simp [hmem]
  rw [hlen]
  by_cases hk : AES_BLOCK_SIZE ≤ keylen
  · have ht : (mem.take keylen).take AES_BLOCK_SIZE = mem.take AES_BLOCK_SIZE := by
      rw [List.take_take, Nat.min_eq_left hk]
    rw [ht]
    constructor
    · intro h
      right
      by_contra hc
      exact h ⟨hk, fun b hb hb0 => hc ⟨b, hb, hb0⟩⟩
    · rintro (h | ⟨b, hb, hb0⟩) hc
      · exact absurd hk (Nat.not_le.mpr h)
      · exact hc.2 b hb hb0
  · constructor
    · intro _
      exact Or.inl (Nat.not_le.mp hk)
    · intro _ hc
      exact hk hc.1

/-- When `CopyFromUser` rejects the request, `xcrypt` returns its code, leaves
the file system as it was and has opened no file. -/
theorem xcrypt_of_rejected (env : Env) (a : Args) (w : World)
    (hker : env.kmallocFails .ker_buf = false)
    (h : (CopyFromUser env a (w.emit (.acquire .ker_buf))).1 ≠ 0) :
    (xcrypt env a w).1 = (CopyFromUser env a (w.emit (.acquire .ker_buf))).1 ∧
    (xcrypt env a w).2.fs = w.fs ∧
    openEvents (xcrypt env a w).2.log = openEvents w.log := by
  unfold xcrypt
  simp only [hker, Bool.false_eq_true, if_false, h, ne_eq, not_false_eq_true, if_true]
  refine ⟨rfl, ?_, ?_⟩
  · rw [copyFail_fs, CopyFromUser_fs]; rfl
  · rw [copyFail_opens, CopyFromUser_opens]
    simp [openEvents_closed, Event.isOpen]

/-! ## Opening files -/

theorem open_Input_File_fs (env : Env) (p : Ptr String) (err : Int) (w : World) :
    (open_Input_File env p err w).2.2.fs = w.fs := by
  cases p with
  | null => rfl
  | wild => rfl
  | kern name =>
    simp only [open_Input_File, filp_open]
    by_cases ho : env.openFails .input = true
    · simp [ho]
    · cases hn : w.fs name with
      | none => simp [ho, hn]
      | some n => by_cases hr : n.canRead = true <;> simp [ho, hn, hr]

theorem open_Input_File_payload (env : Env) (p : Ptr String) (err : Int) (w : World) :
    payloadEvents (open_Input_File env p err w).2.2.log = payloadEvents w.log := by
  cases p with
  | null => rfl
  | wild => rfl
  | kern name =>
    simp only [open_Input_File, filp_open]
    by_cases ho : env.openFails .input = true
    · simp [ho]
    · cases hn : w.fs name with
      | none => simp [ho, hn]
      | some n => by_cases hr : n.canRead = true <;> simp [ho, hn, hr]

theorem open_Input_File_none (env : Env) (p : Ptr String) (err : Int) (w : World)
    (h : (open_Input_File env p err w).1 = none) :
    (open_Input_File env p err w).2.1 ≠ 0 := by
  cases p with
  | null => simp [open_Input_File, EBADF]
  | wild => simp [open_Input_File, EPERM]
  | kern name =>
    revert h
    simp only [open_Input_File, filp_open]
    by_cases ho : env.openFails .input = true
    · simp [ho, EPERM]
    · cases hn : w.fs name with
      | none => simp [ho, hn, EPERM]
      | some n => by_cases hr : n.canRead = true <;> simp [ho, hn, hr, EACCES]

theorem open_Input_File_some (env : Env) (name : String) (err : Int) (w : World) (f : File)
    (h : (open_Input_File env (.kern name) err w).1 = some f) :
    ∃ n, w.fs name = some n ∧ n.canRead = true ∧ env.openFails .input = false ∧
      open_Input_File env (.kern name) err w
        = (some (opened name n), err, w.emit (.acquire .in_filp)) := by
  revert h
  simp only [open_Input_File, filp_open]
  by_cases ho : env.openFails .input = true
  · simp [ho]
  · cases hn : w.fs name with
    | none => simp [ho, hn]
    | some n =>
      by_cases hr : n.canRead = true
      · intro _
        exact ⟨n, rfl, hr, by simpa using ho, by simp [ho, hr, opened]⟩
      · simp [ho, hn, hr]

theorem open_Input_File_ok (env : Env) (name : String) (err : Int) (w : World) (n : Inode)
    (hn : w.fs name = some n) (hr : n.canRead = true) (ho : env.openFails .input = false) :
    open_Input_File env (.kern name) err w
      = (some (opened name n), err, w.emit (.acquire .in_filp)) := by
  simp [open_Input_File, filp_open, ho, hn, hr, opened]

theorem set_eq_self (fs : FS) (p : String) (n : Option Inode) (h : fs p = n) :
    fs.set p n = fs := by
  funext q
  by_cases hq : q = p
  · subst hq; simp [h]
  · simp [FS.set, hq]

theorem set_set (fs : FS) (p : String) (n m : Option Inode) :
    (fs.set p n).set p m = fs.set p m := by
  funext q
  by_cases hq : q = p <;> simp [FS.set, hq]

theorem open_output_file_none (env : Env) (p : Ptr String) (err flags : Int) (w : World)
    (h : (open_output_file env p err flags w).1 = none) :
    (open_output_file env p err flags w).2.1 ≠ 0 := by
  cases p with
  | null => simp [open_output_file, EBADF]
  | wild => simp [open_output_file, EPERM]
  | kern name =>
    revert h
    simp only [open_output_file]
    generalize (if flags = 0 then filp_open env .tmp name true true true w
      else filp_open env .output name true true false w) = r
    rcases r with ⟨_ | f, w'⟩
    · simp [EPERM]
    · by_cases hw : f.canWrite = true <;> simp [hw, EACCES]

theorem open_tmp_new (env : Env) (name : String) (err : Int) (w : World)
    (ho : env.openFails .tmp = false) (hn : w.fs name = none) :
    open_output_file env (.kern name) err 0 w
      = (some (opened name ⟨.reg, [], true, true⟩), err,
          ⟨w.fs.set name (some ⟨.reg, [], true, true⟩), w.log ++ [.acquire .tmp_filp]⟩) := by
  simp [open_output_file, filp_open, ho, hn, opened, World.emit]

theorem open_tmp_reg (env : Env) (name : String) (err : Int) (w : World) (n : Inode)
    (ho : env.openFails .tmp = false) (hn : w.fs name = some n) (hr : n.mode = .reg)
    (hw : n.canWrite = true) :
    open_output_file env (.kern name) err 0 w
      = (some (opened name { n with data := [] }), err,
          ⟨w.fs.set name (some { n with data := [] }), w.log ++ [.acquire .tmp_filp]⟩) := by
  simp [open_output_file, filp_open, ho, hn, hr, hw, opened, World.emit]

theorem open_out_new (env : Env) (name : String) (err : Int) (w : World)
    (ho : env.openFails .output = false) (hn : w.fs name = none) :
    open_output_file env (.kern name) err 1 w
      = (some (opened name ⟨.reg, [], true, true⟩), err,
          ⟨w.fs.set name (some ⟨.reg, [], true, true⟩), w.log ++ [.acquire .out_filp]⟩) := by
  simp [open_output_file, filp_open, ho, hn, opened, World.emit]

theorem open_out_old (env : Env) (name : String) (err : Int) (w : World) (n : Inode)
    (ho : env.openFails .output = false) (hn : w.fs name = some n) (hd : n.mode ≠ .dir)
    (hw : n.canWrite = true) :
    open_output_file env (.kern name) err 1 w
      = (some (opened name n), err, ⟨w.fs, w.log ++ [.acquire .out_filp]⟩) := by
  simp [open_output_file, filp_open, ho, hn, hd, hw, opened, World.emit]

/-- A successful open of the temp file that yields a regular file: the path
was free or named a regular file, and now names an empty regular file. -/
theorem open_tmp_some (env : Env) (name : String) (err : Int) (w : World) (t : File)
    (h : (open_output_file env (.kern name) err 0 w).1 = some t) (hreg : t.mode = .reg) :
    ∃ tn w', tn.mode = .reg ∧ tn.data = [] ∧ tn.canWrite = true ∧
      tn.canRead = ((w.fs name).map Inode.canRead).getD true ∧
      env.openFails .tmp = false ∧
      w'.fs = w.fs.set name (some tn) ∧ payloadEvents w'.log = payloadEvents w.log ∧
      open_output_file env (.kern name) err 0 w = (some (opened name tn), err, w') := by
  by_cases ho : env.openFails .tmp = true
  · simp [open_output_file, filp_open, ho] at h
  · have ho' : env.openFails .tmp = false := by simpa using ho
    cases hn : w.fs name with
    | none =>
      exact ⟨_, _, rfl, rfl, rfl, rfl, ho', rfl, by simp, open_tmp_new env name err w ho' hn⟩
    | some n =>
      by_cases hw : n.canWrite = true
      · by_cases hr : n.mode = .reg
        · exact ⟨{ n with data := [] },
            ⟨w.fs.set name (some { n with data := [] }), w.log ++ [.acquire .tmp_filp]⟩,
            hr, rfl, hw, rfl, ho', rfl, by simp, open_tmp_reg env name err w n ho' hn hr hw⟩
        · exfalso
          by_cases hd : n.mode = .dir
          · simp [open_output_file, filp_open, ho', hn, hd] at h
          · simp [open_output_file, filp_open, ho', hn, hd, hr, hw] at h
            rw [← h] at hreg
            exact hr hreg
      · exfalso
        by_cases hd : n.mode = .dir
        · simp [open_output_file, filp_open, ho', hn, hd] at h
        · by_cases hr : n.mode = .reg <;>
            simp [open_output_file, filp_open, ho', hn, hd, hr, hw] at h

/-- The temp file opens when its path is usable. -/
theorem open_tmp_ok (env : Env) (name : String) (err : Int) (w : World)
    (ho : env.openFails .tmp = false) (hu : Usable w.fs name) :
    ∃ tn w', tn.mode = .reg ∧ tn.data = [] ∧ tn.canRead = true ∧ tn.canWrite = true ∧
      w'.fs = w.fs.set name (some tn) ∧ payloadEvents w'.log = payloadEvents w.log ∧
      open_output_file env (.kern name) err 0 w = (some (opened name tn), err, w') := by
  cases hn : w.fs name with
  | none =>
    exact ⟨_, _, rfl, rfl, rfl, rfl, rfl, by simp, open_tmp_new env name err w ho hn⟩
  | some n =>
    obtain ⟨hr, hrd, hw⟩ := hu n hn
    exact ⟨{ n with data := [] },
      ⟨w.fs.set name (some { n with data := [] }), w.log ++ [.acquire .tmp_filp]⟩,
      hr, rfl, hrd, hw, rfl, by simp, open_tmp_reg env name err w n ho hn hr hw⟩

/-- A successful open of the output file: the path was free and now names an
empty regular file, or it named a writable inode that is not a directory. -/
theorem open_out_some (env : Env) (name : String) (err : Int) (w : World) (o : File)
    (h : (open_output_file env (.kern name) err 1 w).1 = some o) :
    ∃ n w', n.canWrite = true ∧ env.openFails .output = false ∧
      (w.fs name = none ∨ w.fs name = some n) ∧
      w'.fs = w.fs.set name (some n) ∧ payloadEvents w'.log = payloadEvents w.log ∧
      open_output_file env (.kern name) err 1 w = (some (opened name n), err, w') := by
  by_cases ho : env.openFails .output = true
  · simp [open_output_file, filp_open, ho] at h
  · have ho' : env.openFails .output = false := by simpa using ho
    cases hn : w.fs name with
    | none =>
      exact ⟨_, _, rfl, ho', Or.inl rfl, rfl, by simp, open_out_new env name err w ho' hn⟩
    | some n =>
      by_cases hd : n.mode = .dir
      · simp [open_output_file, filp_open, ho', hn, hd] at h
      · by_cases hw : n.canWrite = true
        · exact ⟨n, ⟨w.fs, w.log ++ [.acquire .out_filp]⟩, hw, ho', Or.inr rfl,
            (set_eq_self _ _ _ hn).symm, by simp,
            open_out_old env name err w n ho' hn hd hw⟩
        · simp [open_output_file, filp_open, ho', hn, hd, hw] at h

/-- The output file opens when its path is usable. -/
theorem open_out_ok (env : Env) (name : String) (err : Int) (w : World)
    (ho : env.openFails .output = false) (hu : Usable w.fs name) :
    ∃ n w', n.mode = .reg ∧
      w'.fs = w.fs.set name (some n) ∧ payloadEvents w'.log = payloadEvents w.log ∧
      open_output_file env (.kern name) err 1 w = (some (opened name n), err, w') := by
  cases hn : w.fs name with
  | none =>
    exact ⟨_, _, rfl, rfl, by simp, open_out_new env name err w ho hn⟩
  | some n =>
    obtain ⟨hr, _, hw⟩ := hu n hn
    have hd : n.mode ≠ .dir := by rw [hr]; decide
    exact ⟨n, ⟨w.fs, w.log ++ [.acquire .out_filp]⟩, hr, (set_eq_self _ _ _ hn).symm, by simp,
      open_out_old env name err w n ho hn hd hw⟩

/-! ## The stages of a run, one at a time

For every stage there are two facts: what a run that returns 0 must have
met there (`_zero`), and that the stage is passed when nothing fails
(`_ok`). -/

theorem check_file_eq_zero (f : File) : check_file f = 0 ↔ f.mode = .reg := by
  unfold check_file
  cases f.mode <;> simp [EISDIR, EPERM]

theorem CopyFromUser_zero (env : Env) (a : Args) (w : World)
    (h : (CopyFromUser env a w).1 = 0) : ∃ src dst mem, Accepted env a src dst mem := by
  rcases a with ⟨_ | src, _ | dst, _ | mem, keylen, flags⟩
  all_goals try (simp [CopyFromUser, userArgsCheck, EINVAL] at h; done)
  by_cases hmem : keylen ≤ mem.length
  swap
  · simp [CopyFromUser, userArgsCheck, EINVAL, hmem] at h
  by_cases hf : flags ≠ 0 ∧ flags ≠ 1
  · simp [CopyFromUser, userArgsCheck, hmem, hf, EPERM] at h
  by_cases h1 : PATH_MAX < src.length
  · simp [CopyFromUser, userArgsCheck, hmem, hf, checkFilePathMax, h1, EINVAL] at h
  by_cases hin : env.kmallocFails .infile = true
  · simp [CopyFromUser, userArgsCheck, hmem, hf, checkFilePathMax, h1, hin, checkCharMemAlloc,
      Ptr.isNull, ENOMEM] at h
  by_cases h2 : PATH_MAX < dst.length
  · simp [CopyFromUser, userArgsCheck, hmem, hf, checkFilePathMax, h1, hin, h2, EINVAL,
      CopyFromUser.inputFileFail] at h
  by_cases hkey : env.kmallocFails .keybuf = true
  · simp [CopyFromUser, userArgsCheck, hmem, hf, checkFilePathMax, h1, hin, h2, hkey,
      checkCharMemAlloc, Ptr.isNull, ENOMEM, CopyFromUser.inputFileFail,
      CopyFromUser.outputFileFail] at h
  by_cases h3 : strlen (mem.take keylen ++ [0]) < AES_BLOCK_SIZE
  · simp [CopyFromUser, userArgsCheck, hmem, hf, checkFilePathMax, h1, hin, h2, hkey, h3, EINVAL,
      CopyFromUser.inputFileFail, CopyFromUser.outputFileFail, CopyFromUser.keybufFail] at h
  refine ⟨src, dst, mem, rfl, rfl, rfl, hmem, ?_, Nat.not_lt.mp h1, Nat.not_lt.mp h2,
    Nat.not_lt.mp h3, by simpa using hin, by simpa using hkey⟩
  by_contra hc
  exact hf ⟨fun h0 => hc (Or.inl h0), fun h1 => hc (Or.inr h1)⟩

theorem xcrypt_accepted (env : Env) (a : Args) (w : World) (src dst : String)
    (mem : List Byte) (hacc : Accepted env a src dst mem)
    (hker : env.kmallocFails .ker_buf = false) :
    ∃ w', w'.fs = w.fs ∧ payloadEvents w'.log = payloadEvents w.log ∧
      xcrypt env a w
        = xcrypt.openInput env ⟨kargs a src dst mem, none, none, none, false⟩ 0 w' := by
  refine ⟨(((w.emit (.acquire .ker_buf)).emit (.acquire .infile)).emit (.acquire .outfile)).emit
    (.acquire .keybuf), rfl, by simp, ?_⟩
  simp [xcrypt, hker, CopyFromUser_accepted hacc]

theorem xcrypt_zero (env : Env) (a : Args) (w : World) (h : (xcrypt env a w).1 = 0) :
    ∃ src dst mem, Accepted env a src dst mem ∧ env.kmallocFails .ker_buf = false := by
  by_cases hker : env.kmallocFails .ker_buf = true
  · simp [xcrypt, hker, ENOMEM] at h
  have hker' : env.kmallocFails .ker_buf = false := by simpa using hker
  by_cases hc : (CopyFromUser env a (w.emit (.acquire .ker_buf))).1 = 0
  · obtain ⟨src, dst, mem, hacc⟩ := CopyFromUser_zero env a _ hc
    exact ⟨src, dst, mem, hacc, hker'⟩
  · have := (xcrypt_of_rejected env a w hker' hc).1
    rw [h] at this
    exact absurd this.symm hc

theorem openInput_ok (env : Env) (L : Locals) (ret : Int) (w : World) (src : String)
    (n : Inode) (hsrc : L.kb.infile = .kern src) (hn : w.fs src = some n)
    (hreg : n.mode = .reg) (hr : n.canRead = true) (ho : env.openFails .input = false) :
    xcrypt.openInput env L ret w
      = xcrypt.alloc env { L with in_filp := some (opened src n) } (opened src n)
          (w.emit (.acquire .in_filp)) := by
  have hc : check_file (opened src n) = 0 := (check_file_eq_zero _).mpr hreg
  simp [xcrypt.openInput, hsrc, open_Input_File_ok env src ret w n hn hr ho, hc]

theorem openInput_zero (env : Env) (L : Locals) (ret : Int) (w : World) (src : String)
    (hsrc : L.kb.infile = .kern src) (h : (xcrypt.openInput env L ret w).1 = 0) :
    ∃ n, w.fs src = some n ∧ n.mode = .reg ∧ n.canRead = true ∧
      env.openFails .input = false := by
  unfold xcrypt.openInput at h
  rw [hsrc] at h
  cases hr : (open_Input_File env (.kern src) ret w).1 with
  | none =>
    have hne := open_Input_File_none env _ ret w hr
    simp only [hr] at h
    split_ifs at h
    · exact absurd h hne
    · exact absurd h hne
  | some f =>
    obtain ⟨n, hn, hrd, ho, heq⟩ := open_Input_File_some env src ret w f hr
    refine ⟨n, hn, ?_, hrd, ho⟩
    rw [heq] at h
    simp only at h
    by_cases hc : check_file (opened src n) = 0
    · exact (check_file_eq_zero _).mp hc
    · simp only [ne_eq, hc, not_false_eq_true, if_true, closeInputFile_fst] at h

theorem alloc_ok (env : Env) (L : Locals) (inF : File) (w : World)
    (hk : ∀ r, env.kmallocFails r = false) (hreg : inF.mode = .reg) :
    ∃ w', w'.fs = w.fs ∧ payloadEvents w'.log = payloadEvents w.log ∧
      xcrypt.alloc env L inF w = xcrypt.staging env L inF w' := by
  have hc : check_file inF = 0 := (check_file_eq_zero _).mpr hreg
  refine ⟨(((w.emit (.acquire .read_buf)).emit (.acquire .write_buf)).emit
    (.acquire .md5_hash)).emit (.acquire .tmp_file), rfl, by simp, ?_⟩
  simp [xcrypt.alloc, hk, hc]

theorem alloc_zero (env : Env) (L : Locals) (inF : File) (w : World)
    (h : (xcrypt.alloc env L inF w).1 = 0) :
    ∃ w', w'.fs = w.fs ∧ payloadEvents w'.log = payloadEvents w.log ∧
      xcrypt.alloc env L inF w = xcrypt.staging env L inF w' := by
  by_cases h1 : env.kmallocFails .read_buf = true
  · simp [xcrypt.alloc, h1, ENOMEM] at h
  by_cases h2 : env.kmallocFails .write_buf = true
  · simp [xcrypt.alloc, h1, h2, ENOMEM] at h
  by_cases h3 : env.kmallocFails .md5_hash = true
  · simp [xcrypt.alloc, h1, h2, h3, ENOMEM] at h
  by_cases h4 : env.kmallocFails .tmp_file = true
  · simp [xcrypt.alloc, h1, h2, h3, h4, ENOMEM] at h
  by_cases hc : check_file inF = 0
  · refine ⟨(((w.emit (.acquire .read_buf)).emit (.acquire .write_buf)).emit
      (.acquire .md5_hash)).emit (.acquire .tmp_file), rfl, by simp, ?_⟩
    simp [xcrypt.alloc, h1, h2, h3, h4, hc]
  · simp [xcrypt.alloc, h1, h2, h3, h4, hc] at h

theorem staging_ok (env : Env) (L : Locals) (inF : File) (w : World) (src : String)
    (hsrc : L.kb.infile = .kern src) (hlen : (src ++ ".tmp").length ≤ PATH_MAX)
    (ho : env.openFails .tmp = false) (hu : Usable w.fs (src ++ ".tmp")) :
    ∃ tn w', tn.mode = .reg ∧ tn.data = [] ∧ tn.canRead = true ∧ tn.canWrite = true ∧
      w'.fs = w.fs.set (src ++ ".tmp") (some tn) ∧ payloadEvents w'.log = payloadEvents w.log ∧
      xcrypt.staging env L inF w
        = xcrypt.tag env { L with tmp_filp := some (opened (src ++ ".tmp") tn) } inF
            (opened (src ++ ".tmp") tn) w' := by
  obtain ⟨tn, w', hm, hd, hr, hw, hfs, hp, heq⟩ := open_tmp_ok env (src ++ ".tmp") 0 w ho hu
  refine ⟨tn, w', hm, hd, hr, hw, hfs, hp, ?_⟩
  have hc : check_file (opened (src ++ ".tmp") tn) = 0 := (check_file_eq_zero _).mpr hm
  have hl : ¬ PATH_MAX < (src ++ ".tmp").length := Nat.not_lt.mpr hlen
  simp [-String.length_append, xcrypt.staging, hsrc, Ptr.get, checkFilePathMax, hl, heq, hc]

theorem staging_zero (env : Env) (L : Locals) (inF : File) (w : World) (src : String)
    (hsrc : L.kb.infile = .kern src) (h : (xcrypt.staging env L inF w).1 = 0) :
    ∃ tn w', tn.mode = .reg ∧ tn.data = [] ∧ tn.canWrite = true ∧
      tn.canRead = ((w.fs (src ++ ".tmp")).map Inode.canRead).getD true ∧
      (src ++ ".tmp").length ≤ PATH_MAX ∧
      w'.fs = w.fs.set (src ++ ".tmp") (some tn) ∧ payloadEvents w'.log = payloadEvents w.log ∧
      xcrypt.staging env L inF w
        = xcrypt.tag env { L with tmp_filp := some (opened (src ++ ".tmp") tn) } inF
            (opened (src ++ ".tmp") tn) w' := by
  by_cases hl : PATH_MAX < (src ++ ".tmp").length
  · simp [-String.length_append, xcrypt.staging, hsrc, Ptr.get, checkFilePathMax, hl, EINVAL] at h
  have hstep : xcrypt.staging env L inF w =
      (match (open_output_file env (.kern (src ++ ".tmp")) 0 0 w).1 with
      | none =>
        if (open_output_file env (.kern (src ++ ".tmp")) 0 0 w).2.1 = -EACCES then
          closeTmpFile L (open_output_file env (.kern (src ++ ".tmp")) 0 0 w).2.1
            (open_output_file env (.kern (src ++ ".tmp")) 0 0 w).2.2
        else freetmpfilename L (open_output_file env (.kern (src ++ ".tmp")) 0 0 w).2.1
            (open_output_file env (.kern (src ++ ".tmp")) 0 0 w).2.2
      | some t =>
        if (if check_file t ≠ 0 then (1 : Int) else 0) ≠ 0 then
          freetmpfilename { L with tmp_filp := some t } (if check_file t ≠ 0 then 1 else 0)
            (open_output_file env (.kern (src ++ ".tmp")) 0 0 w).2.2
        else xcrypt.tag env { L with tmp_filp := some t } inF t
            (open_output_file env (.kern (src ++ ".tmp")) 0 0 w).2.2) := by
    simp [-String.length_append, xcrypt.staging, hsrc, Ptr.get, checkFilePathMax, hl]
  rw [hstep] at h ⊢
  cases hr : (open_output_file env (.kern (src ++ ".tmp")) 0 0 w).1 with
  | none =>
    have hne := open_output_file_none env _ 0 0 w hr
    simp only [hr] at h
    split_ifs at h
    · exact absurd h hne
    · exact absurd h hne
  | some t =>
    simp only [hr] at h ⊢
    by_cases hc : check_file t = 0
    · have hreg := (check_file_eq_zero _).mp hc
      obtain ⟨tn, w', hm, hd, hw, hcr, _, hfs, hp, heq⟩ :=
        open_tmp_some env (src ++ ".tmp") 0 w t hr hreg
      have ht : t = opened (src ++ ".tmp") tn := by
        rw [heq] at hr
        exact (Option.some.inj hr).symm
      refine ⟨tn, w', hm, hd, hw, hcr, Nat.not_lt.mp hl, hfs, hp, ?_⟩
      subst ht
      simp [hc, heq]
    · simp [hc] at h

/-! ### The key tag -/

theorem writeAt_end (d b : List Byte) : writeAt d d.length b = d ++ b := by
  simp [writeAt]

theorem vfs_store_end (filp : File) (bytes : List Byte) (w : World) (n : Inode)
    (hn : w.fs filp.path = some n) (hpos : filp.f_pos = n.data.length) :
    vfs_store filp bytes w
      = ((bytes.length : Int), { filp with f_pos := n.data.length + bytes.length },
          ⟨w.fs.set filp.path (some { n with data := n.data ++ bytes }),
            w.log ++ [.write filp.path bytes]⟩) := by
  simp [vfs_store, hn, hpos, writeAt_end]

/-- A write that reports all `bytes.length` bytes stored has stored them all. -/
theorem write_output_file_full (res : WriteRes) (filp : File) (bytes : List Byte) (w : World)
    (h : (write_output_file res filp bytes w).1 = (bytes.length : Int)) :
    write_output_file res filp bytes w = vfs_store filp bytes w := by
  cases res with
  | full => rfl
  | short k =>
    simp only [write_output_file, vfs_store] at h
    have hk : (bytes.take k).length = bytes.length := by exact_mod_cast h
    have hle : bytes.length ≤ k := by
      rw [List.length_take] at hk
      omega
    simp [write_output_file, List.take_of_length_le hle]
  | fail e =>
    simp only [write_output_file] at h
    omega

theorem tag_enc_unfold (env : Env) (L : Locals) (inF tmpF : File) (w : World)
    (hfl : L.kb.flags = 1) (hm : env.md5Fails = false) :
    xcrypt.tag env L inF tmpF w =
      if (write_output_file env.tagWrite tmpF
          (env.P.digest (((L.kb.keybuf.get []).take L.kb.keylen).take 1)) w).1 ≠ (AES_BLOCK_SIZE : Int)
      then closeTmpFile { L with tmp_err_flag := true } (-EFAULT)
        (write_output_file env.tagWrite tmpF
          (env.P.digest (((L.kb.keybuf.get []).take L.kb.keylen).take 1)) w).2.2
      else xcrypt.stream env L inF
        (write_output_file env.tagWrite tmpF
          (env.P.digest (((L.kb.keybuf.get []).take L.kb.keylen).take 1)) w).2.1 0
        (write_output_file env.tagWrite tmpF
          (env.P.digest (((L.kb.keybuf.get []).take L.kb.keylen).take 1)) w).2.2 := by
  unfold xcrypt.tag calculate_md5_hash
  simp only [hm, hfl, Bool.false_eq_true, if_false, ne_eq, not_true_eq_false, if_true]

theorem tag_dec_unfold (env : Env) (L : Locals) (inF tmpF : File) (w : World)
    (hfl : L.kb.flags = 0) (hm : env.md5Fails = false) :
    xcrypt.tag env L inF tmpF w =
      if (read_input_file env.tagRead inF AES_BLOCK_SIZE w).1 ≠ (AES_BLOCK_SIZE : Int)
      then closeTmpFile { L with tmp_err_flag := true } (-EFAULT) w
      else if (read_input_file env.tagRead inF AES_BLOCK_SIZE w).2.1.take AES_BLOCK_SIZE
          ≠ (env.P.digest (((L.kb.keybuf.get []).take L.kb.keylen).take 1)).take AES_BLOCK_SIZE
      then closeTmpFile { L with tmp_err_flag := true } (-EPERM) w
      else xcrypt.stream env L (read_input_file env.tagRead inF AES_BLOCK_SIZE w).2.2 tmpF 0 w := by
  have h1 : ¬ ((0 : Int) = 1) := by decide
  unfold xcrypt.tag calculate_md5_hash
  simp only [hm, hfl, h1, Bool.false_eq_true, if_false, ne_eq, not_true_eq_false, if_true]

theorem tag_md5_fails (env : Env) (L : Locals) (inF tmpF : File) (w : World)
    (hm : env.md5Fails = true) :
    xcrypt.tag env L inF tmpF w = closeTmpFile { L with tmp_err_flag := true } (-EFAULT) w := by
  have h1 : -EFAULT ≠ 0 := by decide
  unfold xcrypt.tag calculate_md5_hash
  simp only [hm, if_true, ne_eq, h1, not_false_eq_true]

theorem tag_ok_enc (env : Env) (L : Locals) (inF tmpF : File) (w : World) (key : List Byte)
    (tn : Inode) (hfl : L.kb.flags = 1) (hkey : L.kb.keybuf = .kern key)
    (hm : env.md5Fails = false) (htw : env.tagWrite = .full)
    (ht : w.fs tmpF.path = some tn) (hd : tn.data = []) (hpos : tmpF.f_pos = 0) :
    xcrypt.tag env L inF tmpF w
      = xcrypt.stream env L inF { tmpF with f_pos := AES_BLOCK_SIZE } 0
          ⟨w.fs.set tmpF.path (some { tn with data := compute_tag env ((key.take L.kb.keylen).take 1) }),
            w.log ++ [.write tmpF.path (compute_tag env ((key.take L.kb.keylen).take 1))]⟩ := by
  have hs := vfs_store_end tmpF (env.P.digest ((key.take L.kb.keylen).take 1)) w tn ht (by simp [hpos, hd])
  rw [tag_enc_unfold env L inF tmpF w hfl hm, htw, hkey]
  simp only [write_output_file, Ptr.get, hs, env.P.digest_len, hd, List.length_nil, Nat.zero_add,
    List.nil_append, ne_eq, not_true_eq_false, if_false, compute_tag]

theorem tag_zero_enc (env : Env) (L : Locals) (inF tmpF : File) (w : World) (key : List Byte)
    (tn : Inode) (hfl : L.kb.flags = 1) (hkey : L.kb.keybuf = .kern key)
    (ht : w.fs tmpF.path = some tn) (hd : tn.data = []) (hpos : tmpF.f_pos = 0)
    (h : (xcrypt.tag env L inF tmpF w).1 = 0) :
    xcrypt.tag env L inF tmpF w
      = xcrypt.stream env L inF { tmpF with f_pos := AES_BLOCK_SIZE } 0
          ⟨w.fs.set tmpF.path (some { tn with data := compute_tag env ((key.take L.kb.keylen).take 1) }),
            w.log ++ [.write tmpF.path (compute_tag env ((key.take L.kb.keylen).take 1))]⟩ := by
  have hne : -EFAULT ≠ 0 := by decide
  by_cases hm : env.md5Fails = true
  · rw [tag_md5_fails env L inF tmpF w hm] at h
    exact absurd h hne
  have hm' : env.md5Fails = false := by simpa using hm
  rw [tag_enc_unfold env L inF tmpF w hfl hm', hkey] at h ⊢
  simp only [Ptr.get] at h ⊢
  by_cases hc : (write_output_file env.tagWrite tmpF (env.P.digest ((key.take L.kb.keylen).take 1)) w).1
      = (AES_BLOCK_SIZE : Int)
  · have hc' : (write_output_file env.tagWrite tmpF (env.P.digest ((key.take L.kb.keylen).take 1)) w).1
        = ((env.P.digest ((key.take L.kb.keylen).take 1)).length : Int) := by
      rw [env.P.digest_len]; exact hc
    have hfull := write_output_file_full _ _ _ _ hc'
    have hs := vfs_store_end tmpF (env.P.digest ((key.take L.kb.keylen).take 1)) w tn ht
      (by simp [hpos, hd])
    rw [hfull, hs]
    simp only [env.P.digest_len, hd, List.length_nil, Nat.zero_add,
      List.nil_append, ne_eq, not_true_eq_false, if_false, compute_tag]
  · rw [if_pos hc] at h
    exact absurd h hne

theorem read_input_file_ok (filp : File) (len : Nat) (w : World) (n : Inode)
    (hn : w.fs filp.path = some n) :
    read_input_file none filp len w
      = ((((n.data.drop filp.f_pos).take len).length : Int), (n.data.drop filp.f_pos).take len,
          { filp with f_pos := filp.f_pos + ((n.data.drop filp.f_pos).take len).length }) := by
  simp [read_input_file, hn]

theorem tag_ok_dec (env : Env) (L : Locals) (inF tmpF : File) (w : World) (key : List Byte)
    (nIn : Inode) (hfl : L.kb.flags = 0) (hkey : L.kb.keybuf = .kern key)
    (hm : env.md5Fails = false) (htr : env.tagRead = none)
    (hin : w.fs inF.path = some nIn) (hpos : inF.f_pos = 0)
    (hlen : AES_BLOCK_SIZE ≤ nIn.data.length)
    (htag : nIn.data.take AES_BLOCK_SIZE = compute_tag env ((key.take L.kb.keylen).take 1)) :
    xcrypt.tag env L inF tmpF w
      = xcrypt.stream env L { inF with f_pos := AES_BLOCK_SIZE } tmpF 0 w := by
  have hr := read_input_file_ok inF AES_BLOCK_SIZE w nIn hin
  have hl : (nIn.data.take AES_BLOCK_SIZE).length = AES_BLOCK_SIZE := by
    rw [List.length_take]; omega
  have hd : (env.P.digest ((key.take L.kb.keylen).take 1)).take AES_BLOCK_SIZE
      = env.P.digest ((key.take L.kb.keylen).take 1) :=
    List.take_of_length_le (by rw [env.P.digest_len])
  simp only [hpos, List.drop_zero, hl, Nat.zero_add] at hr
  rw [tag_dec_unfold env L inF tmpF w hfl hm, htr, hr, hkey]
  simp only [Ptr.get, ne_eq, not_true_eq_false, if_false,
    List.take_take AES_BLOCK_SIZE AES_BLOCK_SIZE nIn.data, Nat.min_self, htag, hd,
    compute_tag]

theorem tag_zero_dec (env : Env) (L : Locals) (inF tmpF : File) (w : World) (key : List Byte)
    (nIn : Inode) (hfl : L.kb.flags = 0) (hkey : L.kb.keybuf = .kern key)
    (hin : w.fs inF.path = some nIn) (hpos : inF.f_pos = 0)
    (h : (xcrypt.tag env L inF tmpF w).1 = 0) :
    AES_BLOCK_SIZE ≤ nIn.data.length ∧
    nIn.data.take AES_BLOCK_SIZE = compute_tag env ((key.take L.kb.keylen).take 1) ∧
    xcrypt.tag env L inF tmpF w
      = xcrypt.stream env L { inF with f_pos := AES_BLOCK_SIZE } tmpF 0 w := by
  have hne : -EFAULT ≠ 0 := by decide
  have hne' : -EPERM ≠ 0 := by decide
  by_cases hm : env.md5Fails = true
  · rw [tag_md5_fails env L inF tmpF w hm] at h
    exact absurd h hne
  have hm' : env.md5Fails = false := by simpa using hm
  cases htr : env.tagRead with
  | some e =>
    exfalso
    have hx : -((e : Int) + 1) ≠ (AES_BLOCK_SIZE : Int) := by
      simp only [AES_BLOCK_SIZE]; omega
    rw [tag_dec_unfold env L inF tmpF w hfl hm', htr] at h
    simp only [read_input_file] at h
    rw [if_pos hx] at h
    exact absurd h hne
  | none =>
    have hr := read_input_file_ok inF AES_BLOCK_SIZE w nIn hin
    simp only [hpos, List.drop_zero, Nat.zero_add] at hr
    have hd : (env.P.digest ((key.take L.kb.keylen).take 1)).take AES_BLOCK_SIZE
        = env.P.digest ((key.take L.kb.keylen).take 1) :=
      List.take_of_length_le (by rw [env.P.digest_len])
    by_cases hlen : AES_BLOCK_SIZE ≤ nIn.data.length
    · by_cases htag : nIn.data.take AES_BLOCK_SIZE = compute_tag env ((key.take L.kb.keylen).take 1)
      · exact ⟨hlen, htag, tag_ok_dec env L inF tmpF w key nIn hfl hkey hm' htr hin hpos hlen htag⟩
      · exfalso
        have hl : (nIn.data.take AES_BLOCK_SIZE).length = AES_BLOCK_SIZE := by
          rw [List.length_take]; omega
        rw [tag_dec_unfold env L inF tmpF w hfl hm', htr, hr, hkey] at h
        simp only [Ptr.get, hl, ne_eq, not_true_eq_false, if_false,
          List.take_take AES_BLOCK_SIZE AES_BLOCK_SIZE nIn.data, Nat.min_self,
          hd] at h
        simp only [compute_tag] at htag
        rw [if_pos htag] at h
        exact absurd h hne'
    · exfalso
      have hl : ((nIn.data.take AES_BLOCK_SIZE).length : Int) ≠ (AES_BLOCK_SIZE : Int) := by
        rw [List.length_take]
        intro hc
        have : min AES_BLOCK_SIZE nIn.data.length = AES_BLOCK_SIZE := by exact_mod_cast hc
        omega
      rw [tag_dec_unfold env L inF tmpF w hfl hm', htr, hr] at h
      rw [if_pos hl] at h
      exact absurd h hne

theorem transform_chunk_length (env : Env) (flags : Int) (key c : List Byte) :
    (transform_chunk env flags key c).length = c.length := by
  unfold transform_chunk
  split
  · exact env.P.enc_len _ _ _
  · exact env.P.dec_len _ _ _

theorem loop_eof (env : Env) (kb : KArgs) (fuel i : Nat) (inF tmpF : File) (ret : Int)
    (w : World) (nIn : Inode) (hr : env.readErr i = none) (hin : w.fs inF.path = some nIn)
    (hbuf : unitAt nIn.data inF.f_pos = []) :
    xcrypt.loop env kb (fuel + 1) i inF tmpF ret w = .done ret w := by
  have hrd : read_input_file none inF PAGE_SIZE w
      = (((unitAt nIn.data inF.f_pos).length : Int), unitAt nIn.data inF.f_pos,
          { inF with f_pos := inF.f_pos + (unitAt nIn.data inF.f_pos).length }) :=
    read_input_file_ok inF PAGE_SIZE w nIn hin
  unfold xcrypt.loop
  simp only [hr, hrd, hbuf, List.length_nil, Nat.cast_zero, gt_iff_lt, lt_self_iff_false,
    if_false]

theorem loop_cipher_fails (env : Env) (kb : KArgs) (fuel i : Nat) (inF tmpF : File) (ret : Int)
    (w : World) (nIn : Inode) (e : Nat) (hfl : kb.flags = 0 ∨ kb.flags = 1)
    (hr : env.readErr i = none) (hin : w.fs inF.path = some nIn)
    (hbuf : unitAt nIn.data inF.f_pos ≠ [])
    (hc : env.cipherErr i = some e) :
    ∃ w', xcrypt.loop env kb (fuel + 1) i inF tmpF ret w = .fail (-EFAULT) w' := by
  have hrd : read_input_file none inF PAGE_SIZE w
      = (((unitAt nIn.data inF.f_pos).length : Int), unitAt nIn.data inF.f_pos,
          { inF with f_pos := inF.f_pos + (unitAt nIn.data inF.f_pos).length }) :=
    read_input_file_ok inF PAGE_SIZE w nIn hin
  have hpos : (0 : Int) < ((unitAt nIn.data inF.f_pos).length : Int) := by
    have := List.length_pos.mpr hbuf
    exact_mod_cast this
  have hneg : -((e : Int) + 1) < 0 := by omega
  unfold xcrypt.loop
  rcases hfl with h0 | h1
  · have h01 : ¬ ((0 : Int) = 1) := by decide
    simp only [hr, hrd, gt_iff_lt, hpos, if_true, h0, h01, if_false, xcrypt_aes_decrypt, hc, hneg]
    exact ⟨_, rfl⟩
  · simp only [hr, hrd, gt_iff_lt, hpos, if_true, h1, xcrypt_aes_encrypt, hc, hneg]
    exact ⟨_, rfl⟩

theorem loop_step (env : Env) (kb : KArgs) (fuel i : Nat) (inF tmpF : File) (ret : Int)
    (w : World) (nIn nT : Inode) (hfl : kb.flags = 0 ∨ kb.flags = 1)
    (hr : env.readErr i = none) (hw : env.writeRes i = .full) (hc : env.cipherErr i = none)
    (hin : w.fs inF.path = some nIn) (ht : w.fs tmpF.path = some nT)
    (hpos : tmpF.f_pos = nT.data.length)
    (hbuf : unitAt nIn.data inF.f_pos ≠ []) :
    xcrypt.loop env kb (fuel + 1) i inF tmpF ret w
      = xcrypt.loop env kb fuel (i + 1)
          { inF with f_pos := inF.f_pos + (unitAt nIn.data inF.f_pos).length }
          { tmpF with f_pos := nT.data.length + (unitAt nIn.data inF.f_pos).length }
          0
          ⟨w.fs.set tmpF.path (some ⟨nT.mode,
              nT.data ++ transform_chunk env kb.flags (kb.keybuf.get []) (unitAt nIn.data inF.f_pos),
              nT.canRead, nT.canWrite⟩),
            w.log ++ [.transform (unitAt nIn.data inF.f_pos).length,
              .write tmpF.path
                (transform_chunk env kb.flags (kb.keybuf.get []) (unitAt nIn.data inF.f_pos))]⟩ := by
  have hrd : read_input_file none inF PAGE_SIZE w
      = (((unitAt nIn.data inF.f_pos).length : Int), unitAt nIn.data inF.f_pos,
          { inF with f_pos := inF.f_pos + (unitAt nIn.data inF.f_pos).length }) :=
    read_input_file_ok inF PAGE_SIZE w nIn hin
  have hlen : 0 < (unitAt nIn.data inF.f_pos).length := List.length_pos.mpr hbuf
  have hposI : (0 : Int) < ((unitAt nIn.data inF.f_pos).length : Int) := by
    exact_mod_cast hlen
  have hnz : ¬ (((unitAt nIn.data inF.f_pos).length : Int) = 0) := by omega
  have h00 : ¬ ((0 : Int) < 0) := by decide
  rw [xcrypt.loop]
  rcases hfl with h0 | h1
  · have h01 : ¬ ((0 : Int) = 1) := by decide
    have hs := vfs_store_end tmpF (env.P.dec ((kb.keybuf.get []).take AES_BLOCK_SIZE) env.aes_iv
      (unitAt nIn.data inF.f_pos))
      (w.emit (.transform (unitAt nIn.data inF.f_pos).length)) nT ht hpos
    simp only [hr, hrd, gt_iff_lt, hposI, if_true, h0, h01, if_false, xcrypt_aes_decrypt, hc, h00,
      hw, write_output_file, hs, env.P.dec_len, hnz, transform_chunk, emit_fs, emit_log,
      List.append_assoc, List.singleton_append]
  · have hs := vfs_store_end tmpF (env.P.enc ((kb.keybuf.get []).take AES_BLOCK_SIZE) env.aes_iv
      (unitAt nIn.data inF.f_pos))
      (w.emit (.transform (unitAt nIn.data inF.f_pos).length)) nT ht hpos
    simp only [hr, hrd, gt_iff_lt, hposI, if_true, h1, xcrypt_aes_encrypt, hc, h00, if_false,
      hw, write_output_file, hs, env.P.enc_len, hnz, transform_chunk, emit_fs, emit_log,
      List.append_assoc, List.singleton_append]

/-! ### Transfer units -/

theorem PAGE_SIZE_pos : 0 < PAGE_SIZE := by decide

theorem unitsAux_nil (n fuel : Nat) : unitsAux n fuel [] = [] := by
  cases fuel <;> simp [unitsAux]

/-- Once the bound covers the length, the units do not depend on it. -/
theorem unitsAux_fuel (n : Nat) (hn : 0 < n) :
    ∀ (fuel fuel' : Nat) (l : List Byte), l.length ≤ fuel → l.length ≤ fuel' →
      unitsAux n fuel l = unitsAux n fuel' l := by
  intro fuel
  induction fuel with
  | zero =>
    intro fuel' l h _
    have : l = [] := List.length_eq_zero.mp (Nat.le_zero.mp h)
    subst this
    rw [unitsAux_nil, unitsAux_nil]
  | succ k ih =>
    intro fuel' l h h'
    cases fuel' with
    | zero =>
      have : l = [] := List.length_eq_zero.mp (Nat.le_zero.mp h')
      subst this
      rw [unitsAux_nil, unitsAux_nil]
    | succ k' =>
      by_cases hl : l = []
      · subst hl
        rw [unitsAux_nil, unitsAux_nil]
      · have hpos : 0 < l.length := List.length_pos.mpr hl
        simp only [unitsAux, hl, if_false]
        rw [ih k' (l.drop n) (by rw [List.length_drop]; omega) (by rw [List.length_drop]; omega)]

theorem units_nil (n : Nat) : units n [] = [] := rfl

theorem units_cons (n : Nat) (hn : 0 < n) (l : List Byte) (hl : l ≠ []) :
    units n l = l.take n :: units n (l.drop n) := by
  have hpos : 0 < l.length := List.length_pos.mpr hl
  unfold units
  obtain ⟨k, hk⟩ : ∃ k, l.length = k + 1 := ⟨l.length - 1, by omega⟩
  rw [hk]
  simp only [unitsAux, hl, if_false]
  rw [unitsAux_fuel n hn k (l.drop n).length (l.drop n) (by rw [List.length_drop]; omega)
    (Nat.le_refl _)]

theorem transformUnits_nil (f : List Byte → List Byte) : transformUnits f [] = [] := rfl

theorem transformUnits_cons (f : List Byte → List Byte) (l : List Byte) (hl : l ≠ []) :
    transformUnits f l = f (l.take PAGE_SIZE) ++ transformUnits f (l.drop PAGE_SIZE) := by
  unfold transformUnits
  rw [units_cons PAGE_SIZE PAGE_SIZE_pos l hl]
  simp

/-- Every unit is non-empty and at most `n` bytes long. -/
theorem units_bounds (n : Nat) (hn : 0 < n) :
    ∀ (k : Nat) (l : List Byte), l.length ≤ k → ∀ c ∈ units n l, 0 < c.length ∧ c.length ≤ n := by
  intro k
  induction k with
  | zero =>
    intro l h c hc
    have : l = [] := List.length_eq_zero.mp (Nat.le_zero.mp h)
    subst this
    simp [units_nil] at hc
  | succ k ih =>
    intro l h c hc
    by_cases hl : l = []
    · subst hl
      simp [units_nil] at hc
    · have hpos : 0 < l.length := List.length_pos.mpr hl
      rw [units_cons n hn l hl] at hc
      rcases List.mem_cons.mp hc with h1 | h2
      · subst h1
        rw [List.length_take]
        omega
      · exact ih (l.drop n) (by rw [List.length_drop]; omega) c h2

/-- The units concatenate to the payload. -/
theorem units_flatten (n : Nat) (hn : 0 < n) :
    ∀ (k : Nat) (l : List Byte), l.length ≤ k → (units n l).flatten = l := by
  intro k
  induction k with
  | zero =>
    intro l h
    have : l = [] := List.length_eq_zero.mp (Nat.le_zero.mp h)
    subst this
    rfl
  | succ k ih =>
    intro l h
    by_cases hl : l = []
    · subst hl
      rfl
    · have hpos : 0 < l.length := List.length_pos.mpr hl
      rw [units_cons n hn l hl, List.flatten_cons,
        ih (l.drop n) (by rw [List.length_drop]; omega), List.take_append_drop]

theorem transformUnits_length (f : List Byte → List Byte) (hf : ∀ c, (f c).length = c.length) :
    ∀ (k : Nat) (l : List Byte), l.length ≤ k → (transformUnits f l).length = l.length := by
  intro k
  induction k with
  | zero =>
    intro l h
    have : l = [] := List.length_eq_zero.mp (Nat.le_zero.mp h)
    subst this
    rfl
  | succ k ih =>
    intro l h
    by_cases hl : l = []
    · subst hl
      rfl
    · have hpos : 0 < l.length := List.length_pos.mpr hl
      have hps := PAGE_SIZE_pos
      rw [transformUnits_cons f l hl, List.length_append, hf,
        ih (l.drop PAGE_SIZE) (by rw [List.length_drop]; omega), List.length_take,
        List.length_drop]
      omega

/-- Transforming unit by unit with `f` and then with an inverse `g` of `f`
gives the payload back, because `f` keeps the unit boundaries. -/
theorem transformUnits_inverse (f g : List Byte → List Byte)
    (hf : ∀ c, (f c).length = c.length) (hgf : ∀ c, g (f c) = c) :
    ∀ (k : Nat) (l : List Byte), l.length ≤ k →
      transformUnits g (transformUnits f l) = l := by
  intro k
  induction k with
  | zero =>
    intro l h
    have : l = [] := List.length_eq_zero.mp (Nat.le_zero.mp h)
    subst this
    rfl
  | succ k ih =>
    intro l h
    by_cases hl : l = []
    · subst hl
      rfl
    · have hpos : 0 < l.length := List.length_pos.mpr hl
      have hps := PAGE_SIZE_pos
      rw [transformUnits_cons f l hl]
      have hc : (f (l.take PAGE_SIZE)).length = min PAGE_SIZE l.length := by
        rw [hf, List.length_take]
      have hne : f (l.take PAGE_SIZE) ++ transformUnits f (l.drop PAGE_SIZE) ≠ [] := by
        intro hnil
        have := congrArg List.length hnil
        rw [List.length_append, hc] at this
        simp only [List.length_nil] at this
        omega
      rw [transformUnits_cons g _ hne]
      by_cases hfull : PAGE_SIZE ≤ l.length
      · have hlen : (f (l.take PAGE_SIZE)).length = PAGE_SIZE := by
          rw [hc]; exact Nat.min_eq_left hfull
        rw [List.take_left' hlen, List.drop_left' hlen, hgf,
          ih (l.drop PAGE_SIZE) (by rw [List.length_drop]; omega), List.take_append_drop]
      · have hdrop : l.drop PAGE_SIZE = [] := List.drop_eq_nil_of_le (by omega)
        have hlen : (f (l.take PAGE_SIZE)).length ≤ PAGE_SIZE := by
          rw [hc]; exact Nat.min_le_left _ _
        rw [hdrop, transformUnits_nil, List.append_nil, List.take_of_length_le hlen,
          List.drop_eq_nil_of_le hlen, transformUnits_nil, hgf, List.append_nil,
          List.take_of_length_le (by omega)]

theorem unitAt_eq_nil (data : List Byte) (pos : Nat) :
    unitAt data pos = [] ↔ data.drop pos = [] := by
  unfold unitAt
  constructor
  · intro h
    by_contra hne
    have hpos : 0 < (data.drop pos).length := List.length_pos.mpr hne
    have := congrArg List.length h
    rw [List.length_take] at this
    have hps := PAGE_SIZE_pos
    simp only [List.length_nil] at this
    omega
  · intro h
    rw [h]
    rfl

theorem drop_after_unit (data : List Byte) (pos : Nat) :
    data.drop (pos + (unitAt data pos).length) = (data.drop pos).drop PAGE_SIZE := by
  unfold unitAt
  rw [List.length_take, List.drop_drop]
  by_cases h : PAGE_SIZE ≤ (data.drop pos).length
  · rw [Nat.min_eq_left h, Nat.add_comm]
  · have h' : (data.drop pos).length ≤ PAGE_SIZE := by omega
    have hl : (data.drop pos).length = data.length - pos := List.length_drop _ _
    rw [Nat.min_eq_right h']
    rw [List.drop_eq_nil_of_le (by omega), List.drop_eq_nil_of_le (by omega)]

/-! ### The whole loop -/

/-- With no failing read and no incomplete write the loop either leaves
through a cipher failure with `-EFAULT`, or runs to the end of the input and
has then appended the transformed units of the unread input to the temp file,
touching no other path. -/
theorem loop_spec (env : Env) (kb : KArgs) (hfl : kb.flags = 0 ∨ kb.flags = 1)
    (hr : ∀ i, env.readErr i = none) (hw : ∀ i, env.writeRes i = .full) :
    ∀ (fuel i : Nat) (inF tmpF : File) (ret : Int) (w : World) (nIn nT : Inode),
      w.fs inF.path = some nIn → w.fs tmpF.path = some nT → tmpF.path ≠ inF.path →
      tmpF.f_pos = nT.data.length → nIn.data.length - inF.f_pos < fuel →
      (∃ w', xcrypt.loop env kb fuel i inF tmpF ret w = .fail (-EFAULT) w' ∧
          ∃ j e, env.cipherErr j = some e) ∨
      (∃ r w', xcrypt.loop env kb fuel i inF tmpF ret w = .done r w' ∧
          w'.fs tmpF.path = some ⟨nT.mode,
            nT.data ++ ((unitsAux PAGE_SIZE fuel (nIn.data.drop inF.f_pos)).map
              (transform_chunk env kb.flags (kb.keybuf.get []))).flatten,
            nT.canRead, nT.canWrite⟩ ∧
          ∀ q, q ≠ tmpF.path → w'.fs q = w.fs q) := by
  intro fuel
  induction fuel with
  | zero =>
    intro i inF tmpF ret w nIn nT _ _ _ _ hfuel
    exact absurd hfuel (Nat.not_lt_zero _)
  | succ k ih =>
    intro i inF tmpF ret w nIn nT hin ht hne hpos hfuel
    by_cases hbuf : unitAt nIn.data inF.f_pos = []
    · right
      have hd : nIn.data.drop inF.f_pos = [] := (unitAt_eq_nil _ _).mp hbuf
      refine ⟨ret, w, loop_eof env kb k i inF tmpF ret w nIn (hr i) hin hbuf, ?_, fun _ _ => rfl⟩
      rw [ht, hd, unitsAux_nil]
      simp
    · cases hc : env.cipherErr i with
      | some e =>
        left
        obtain ⟨w', hw'⟩ := loop_cipher_fails env kb k i inF tmpF ret w nIn e hfl (hr i) hin
          hbuf hc
        exact ⟨w', hw', i, e, hc⟩
      | none =>
        have hstep := loop_step env kb k i inF tmpF ret w nIn nT hfl (hr i) (hw i) hc hin ht
          hpos hbuf
        have hd : nIn.data.drop inF.f_pos ≠ [] := fun h => hbuf ((unitAt_eq_nil _ _).mpr h)
        have hulen : 0 < (unitAt nIn.data inF.f_pos).length := List.length_pos.mpr hbuf
        have hdl : 0 < (nIn.data.drop inF.f_pos).length := List.length_pos.mpr hd
        rw [List.length_drop] at hdl
        rw [hstep]
        have hin' : (w.fs.set tmpF.path (some ⟨nT.mode,
            nT.data ++ transform_chunk env kb.flags (kb.keybuf.get [])
              (unitAt nIn.data inF.f_pos), nT.canRead, nT.canWrite⟩)) inF.path = some nIn := by
          rw [set_other _ _ (Ne.symm hne)]
          exact hin
        rcases ih (i + 1)
            { inF with f_pos := inF.f_pos + (unitAt nIn.data inF.f_pos).length }
            { tmpF with f_pos := nT.data.length + (unitAt nIn.data inF.f_pos).length } 0
            ⟨w.fs.set tmpF.path (some ⟨nT.mode,
                nT.data ++ transform_chunk env kb.flags (kb.keybuf.get [])
                  (unitAt nIn.data inF.f_pos), nT.canRead, nT.canWrite⟩),
              w.log ++ [.transform (unitAt nIn.data inF.f_pos).length,
                .write tmpF.path (transform_chunk env kb.flags (kb.keybuf.get [])
                  (unitAt nIn.data inF.f_pos))]⟩
            nIn
            ⟨nT.mode, nT.data ++ transform_chunk env kb.flags (kb.keybuf.get [])
              (unitAt nIn.data inF.f_pos), nT.canRead, nT.canWrite⟩
            hin' (set_same _ _ _) hne
            (by simp [transform_chunk_length]) (by simp only; omega) with
          ⟨w', hf, hj⟩ | ⟨r, w', hdone, hfs, hoth⟩
        · exact Or.inl ⟨w', hf, hj⟩
        · right
          refine ⟨r, w', hdone, ?_, ?_⟩
          · rw [hfs]
            simp only [unitsAux, hd, if_false, List.map_cons, List.flatten_cons,
              drop_after_unit, List.append_assoc]
            rfl
          · intro q hq
            rw [hoth q hq]
            exact set_other _ _ hq

/-! ### The commit -/

theorem commit_unfold (env : Env) (L : Locals) (inF : File) (ret : Int) (w : World)
    (dst : String) (n : Inode) (w' : World)
    (heq : open_output_file env L.kb.outfile ret 1 w = (some (opened dst n), ret, w')) :
    xcrypt.commit env L inF ret w =
      if check_file (opened dst n) ≠ 0 then
        closeOutputFile { L with out_filp := some (opened dst n) } 1 w'
      else if inF.path = dst then
        closeOutputFile { L with out_filp := some (opened dst n), tmp_err_flag := true } (-EPERM) w'
      else if check_file inF ≠ 0 then
        closeOutputFile { L with out_filp := some (opened dst n) } (check_file inF) w'
      else
        closeOutputFile { L with out_filp := some (opened dst n) }
          (file_rename env L.tmp_filp (some (opened dst n)) w').1
          (file_rename env L.tmp_filp (some (opened dst n)) w').2 := by
  unfold xcrypt.commit
  rw [heq]
  by_cases hc : check_file (opened dst n) = 0
  · simp only [hc, ne_eq, not_true_eq_false, if_false]
    rfl
  · simp only [hc, ne_eq, not_false_eq_true, if_true, one_ne_zero]

theorem commit_open_fails (env : Env) (L : Locals) (inF : File) (ret : Int) (w : World)
    (h : (open_output_file env L.kb.outfile ret 1 w).1 = none) :
    (xcrypt.commit env L inF ret w).1 ≠ 0 := by
  have hne := open_output_file_none env _ ret 1 w h
  unfold xcrypt.commit
  simp only [h]
  split_ifs
  · exact hne
  · exact hne

/-- A commit that returns 0 has renamed the temp file to a destination that
is neither the source nor the temp file. -/
theorem commit_zero (env : Env) (L : Locals) (inF : File) (ret : Int) (w : World)
    (dst : String) (t : File) (hdst : L.kb.outfile = .kern dst) (ht : L.tmp_filp = some t)
    (hflag : L.tmp_err_flag = false) (h : (xcrypt.commit env L inF ret w).1 = 0) :
    inF.path ≠ dst ∧ t.path ≠ dst ∧ env.renameFails = false ∧
    (xcrypt.commit env L inF ret w).2.fs dst = w.fs t.path ∧
    (xcrypt.commit env L inF ret w).2.fs t.path = none ∧
    (∀ q, q ≠ dst → q ≠ t.path → (xcrypt.commit env L inF ret w).2.fs q = w.fs q) ∧
    payloadEvents (xcrypt.commit env L inF ret w).2.log = payloadEvents w.log := by
  cases hr : (open_output_file env L.kb.outfile ret 1 w).1 with
  | none => exact absurd h (commit_open_fails env L inF ret w hr)
  | some o =>
    rw [hdst] at hr
    obtain ⟨n, w', _, _, _, hfs, hp, heq⟩ := open_out_some env dst ret w o hr
    rw [← hdst] at heq
    have hu := commit_unfold env L inF ret w dst n w' heq
    rw [hu] at h ⊢
    by_cases hc : check_file (opened dst n) = 0
    swap
    · rw [if_pos hc] at h
      simp at h
    rw [if_neg (not_not.mpr hc)] at h ⊢
    by_cases hs : inF.path = dst
    · rw [if_pos hs] at h
      simp [EPERM] at h
    rw [if_neg hs] at h ⊢
    by_cases hci : check_file inF = 0
    swap
    · rw [if_pos hci] at h
      exact absurd h hci
    rw [if_neg (not_not.mpr hci)] at h ⊢
    rw [ht] at h ⊢
    by_cases hp2 : t.path = dst
    · simp [file_rename, opened, hp2, EPERM] at h
    by_cases hrn : env.renameFails = true
    · simp [file_rename, opened, hp2, hrn, EACCES] at h
    have hrn' : env.renameFails = false := by simpa using hrn
    have hren : file_rename env (some t) (some (opened dst n)) w'
        = (0, vfs_rename t.path dst w') := by
      simp [file_rename, opened, hp2, hrn']
    rw [hren]
    simp only
    rw [closeOutputFile_fs_keep _ _ _ (by simpa using hflag), closeOutputFile_payload]
    refine ⟨hs, hp2, hrn', ?_, ?_, ?_, ?_⟩
    · simp only [vfs_rename, hfs]
      rw [set_other _ _ (Ne.symm hp2), set_same, set_other _ _ hp2]
    · simp [vfs_rename]
    · intro q hq1 hq2
      simp only [vfs_rename, hfs]
      rw [set_other _ _ hq2, set_other _ _ hq1, set_other _ _ hq1]
    · simpa [vfs_rename] using hp

/-- The commit succeeds when the destination is usable and differs from source
and temp file, and the rename does not fail. -/
theorem commit_ok (env : Env) (L : Locals) (inF : File) (ret : Int) (w : World)
    (dst : String) (t : File) (hdst : L.kb.outfile = .kern dst) (ht : L.tmp_filp = some t)
    (ho : env.openFails .output = false) (hu : Usable w.fs dst)
    (hs : inF.path ≠ dst) (hp2 : t.path ≠ dst) (hreg : inF.mode = .reg)
    (hrn : env.renameFails = false) :
    (xcrypt.commit env L inF ret w).1 = 0 := by
  obtain ⟨n, w', hm, _, _, heq⟩ := open_out_ok env dst ret w ho hu
  rw [← hdst] at heq
  rw [commit_unfold env L inF ret w dst n w' heq]
  have hc : check_file (opened dst n) = 0 := (check_file_eq_zero _).mpr hm
  have hci : check_file inF = 0 := (check_file_eq_zero _).mpr hreg
  rw [if_neg (not_not.mpr hc), if_neg hs, if_neg (not_not.mpr hci), ht]
  simp [file_rename, opened, hp2, hrn]

theorem remaining_eq (inF : File) (w : World) (nIn : Inode) (hin : w.fs inF.path = some nIn) :
    remaining inF w = nIn.data.length - inF.f_pos := by
  simp [remaining, hin]

theorem unitsAux_remaining (data : List Byte) (pos : Nat) :
    unitsAux PAGE_SIZE (data.length - pos + 1) (data.drop pos) = units PAGE_SIZE (data.drop pos) := by
  unfold units
  exact unitsAux_fuel PAGE_SIZE PAGE_SIZE_pos _ _ _ (by rw [List.length_drop]; omega)
    (Nat.le_refl _)

/-- A streaming stage that ends in 0, with no failing read and no incomplete
write: the destination now holds the temp file content followed by the
transformed units of the unread input; the temp path is gone; other paths
are untouched. -/
theorem stream_zero (env : Env) (L : Locals) (inF tmpF : File) (ret : Int) (w : World)
    (dst : String) (nIn nT : Inode) (hfl : L.kb.flags = 0 ∨ L.kb.flags = 1)
    (hr : ∀ i, env.readErr i = none) (hw : ∀ i, env.writeRes i = .full)
    (nT' : Inode) (hdst : L.kb.outfile = .kern dst)
    (ht : L.tmp_filp = some (opened tmpF.path nT'))
    (hflag : L.tmp_err_flag = false)
    (hin : w.fs inF.path = some nIn) (hT : w.fs tmpF.path = some nT)
    (hne : tmpF.path ≠ inF.path) (hpos : tmpF.f_pos = nT.data.length)
    (h : (xcrypt.stream env L inF tmpF ret w).1 = 0) :
    inF.path ≠ dst ∧ tmpF.path ≠ dst ∧
    (xcrypt.stream env L inF tmpF ret w).2.fs dst = some ⟨nT.mode,
      nT.data ++ transformUnits (transform_chunk env L.kb.flags (L.kb.keybuf.get []))
        (nIn.data.drop inF.f_pos), nT.canRead, nT.canWrite⟩ ∧
    (xcrypt.stream env L inF tmpF ret w).2.fs tmpF.path = none ∧
    ∀ q, q ≠ dst → q ≠ tmpF.path → (xcrypt.stream env L inF tmpF ret w).2.fs q = w.fs q := by
  have hne0 : -EFAULT ≠ 0 := by decide
  unfold xcrypt.stream at h ⊢
  rw [remaining_eq inF w nIn hin] at h ⊢
  rcases loop_spec env L.kb hfl hr hw (nIn.data.length - inF.f_pos + 1) 0 inF tmpF ret w nIn nT
      hin hT hne hpos (Nat.lt_succ_self _) with ⟨w', hf, _⟩ | ⟨r, w', hdone, hfs, hoth⟩
  · rw [hf] at h
    exact absurd h hne0
  · rw [hdone] at h ⊢
    simp only at h ⊢
    obtain ⟨h1, h2, _, h4, h5, h6, _⟩ := commit_zero env L inF r w' dst _ hdst ht hflag h
    simp only [opened] at h2 h4 h5 h6
    refine ⟨h1, h2, ?_, h5, ?_⟩
    · rw [h4, hfs, unitsAux_remaining]
      rfl
    · intro q hq1 hq2
      rw [h6 q hq1 hq2, hoth q hq2]

/-- The streaming stage ends in 0 when nothing fails, the destination is
usable and differs from source and temp file. -/
theorem stream_ok (env : Env) (L : Locals) (inF tmpF : File) (ret : Int) (w : World)
    (dst : String) (nIn nT : Inode) (hfl : L.kb.flags = 0 ∨ L.kb.flags = 1) (hnf : NoFault env)
    (nT' : Inode) (hdst : L.kb.outfile = .kern dst)
    (ht : L.tmp_filp = some (opened tmpF.path nT'))
    (hin : w.fs inF.path = some nIn) (hT : w.fs tmpF.path = some nT)
    (hne : tmpF.path ≠ inF.path) (hpos : tmpF.f_pos = nT.data.length)
    (hu : Usable w.fs dst) (hs : inF.path ≠ dst) (hp2 : tmpF.path ≠ dst)
    (hreg : inF.mode = .reg) :
    (xcrypt.stream env L inF tmpF ret w).1 = 0 := by
  unfold xcrypt.stream
  rw [remaining_eq inF w nIn hin]
  rcases loop_spec env L.kb hfl hnf.reads hnf.writes (nIn.data.length - inF.f_pos + 1) 0 inF tmpF
      ret w nIn nT hin hT hne hpos (Nat.lt_succ_self _) with
    ⟨w', _, j, e, hj⟩ | ⟨r, w', hdone, _, hoth⟩
  · rw [hnf.cipher j] at hj
    exact absurd hj (by simp)
  · rw [hdone]
    simp only
    have hu' : Usable w'.fs dst := by
      intro n hn
      rw [hoth dst (Ne.symm hp2)] at hn
      exact hu n hn
    exact commit_ok env L inF r w' dst _ hdst ht (hnf.opens _) hu' hs (by simpa [opened] using hp2)
      hreg hnf.rename

theorem write_output_file_fs_other (res : WriteRes) (filp : File) (buf : List Byte) (w : World)
    (q : String) (hq : q ≠ filp.path) :
    (write_output_file res filp buf w).2.2.fs q = w.fs q := by
  cases res with
  | fail e => rfl
  | full =>
    simp only [write_output_file, vfs_store]
    cases h : w.fs filp.path with
    | none => rfl
    | some n => exact set_other _ _ hq
  | short k =>
    simp only [write_output_file, vfs_store]
    cases h : w.fs filp.path with
    | none => rfl
    | some n => exact set_other _ _ hq

theorem write_output_file_path (res : WriteRes) (filp : File) (buf : List Byte) (w : World) :
    (write_output_file res filp buf w).2.1.path = filp.path := by
  cases res <;> rfl

/-- For every behaviour of the collaborators: once the bound exceeds the
number of unread input bytes, the loop does the same for every larger
bound.  The bound `remaining + 1` that `xcrypt.stream` passes is therefore
enough, and the loop ends through a read that returns no bytes or through one
of its `goto`s. -/
theorem loop_fuel (env : Env) (kb : KArgs) :
    ∀ (fuel fuel' i : Nat) (inF tmpF : File) (ret : Int) (w : World),
      tmpF.path ≠ inF.path → remaining inF w < fuel → remaining inF w < fuel' →
      xcrypt.loop env kb fuel i inF tmpF ret w = xcrypt.loop env kb fuel' i inF tmpF ret w := by
  intro fuel
  induction fuel with
  | zero =>
    intro fuel' i inF tmpF ret w _ h _
    exact absurd h (Nat.not_lt_zero _)
  | succ k ih =>
    intro fuel' i inF tmpF ret w hne h h'
    cases fuel' with
    | zero => exact absurd h' (Nat.not_lt_zero _)
    | succ k' =>
      cases hrd : env.readErr i with
      | some e =>
        have hneg : ¬ (-((e : Int) + 1) > 0) := by omega
        simp only [xcrypt.loop, hrd, read_input_file, hneg, if_false]
      | none =>
        cases hin : w.fs inF.path with
        | none =>
          simp [xcrypt.loop, hrd, read_input_file, hin]
        | some nIn =>
          have hread := read_input_file_ok inF PAGE_SIZE w nIn hin
          have hrem : remaining inF w = nIn.data.length - inF.f_pos := remaining_eq inF w nIn hin
          rw [hrem] at h h'
          by_cases hbuf : unitAt nIn.data inF.f_pos = []
          · have hb : (nIn.data.drop inF.f_pos).take PAGE_SIZE = [] := hbuf
            simp [xcrypt.loop, hrd, hread, hb]
          · have hlen : 0 < ((nIn.data.drop inF.f_pos).take PAGE_SIZE).length :=
              List.length_pos.mpr hbuf
            have hposI : (((nIn.data.drop inF.f_pos).take PAGE_SIZE).length : Int) > 0 := by
              exact_mod_cast hlen
            have hd : nIn.data.drop inF.f_pos ≠ [] := fun hx => hbuf ((unitAt_eq_nil _ _).mpr hx)
            have hdl : 0 < (nIn.data.drop inF.f_pos).length := List.length_pos.mpr hd
            rw [List.length_drop] at hdl
            have key : ∀ (c : Int × List Byte) (w1 : World), w1.fs = w.fs →
                xcrypt.loop env kb k (i + 1)
                  { inF with f_pos := inF.f_pos
                      + ((nIn.data.drop inF.f_pos).take PAGE_SIZE).length }
                  (write_output_file (env.writeRes i) tmpF c.2 w1).2.1 c.1
                  (write_output_file (env.writeRes i) tmpF c.2 w1).2.2
                = xcrypt.loop env kb k' (i + 1)
                  { inF with f_pos := inF.f_pos
                      + ((nIn.data.drop inF.f_pos).take PAGE_SIZE).length }
                  (write_output_file (env.writeRes i) tmpF c.2 w1).2.1 c.1
                  (write_output_file (env.writeRes i) tmpF c.2 w1).2.2 := by
              intro c w1 hw1
              have hin' : (write_output_file (env.writeRes i) tmpF c.2 w1).2.2.fs inF.path
                  = some nIn := by
                rw [write_output_file_fs_other _ _ _ _ _ (Ne.symm hne), hw1]
                exact hin
              apply ih
              · rw [write_output_file_path]
                exact hne
              · rw [remaining_eq { inF with f_pos := inF.f_pos
                    + ((nIn.data.drop inF.f_pos).take PAGE_SIZE).length } _ nIn hin']
                simp only
                omega
              · rw [remaining_eq { inF with f_pos := inF.f_pos
                    + ((nIn.data.drop inF.f_pos).take PAGE_SIZE).length } _ nIn hin']
                simp only
                omega
            simp only [xcrypt.loop, hrd, hread, hposI, if_true]
            split
            · rfl
            · rename_i c hc
              split
              · rfl
              · split
                · rfl
                · exact key c _ rfl

/-! ### The streaming loop under any behaviour of the collaborators -/

/-- One iteration whose read returns bytes and whose cipher call succeeds. -/
theorem loop_unfold (env : Env) (kb : KArgs) (fuel i : Nat) (inF tmpF : File) (ret : Int)
    (w : World) (nIn : Inode) (hfl : kb.flags = 0 ∨ kb.flags = 1)
    (hr : env.readErr i = none) (hc : env.cipherErr i = none)
    (hin : w.fs inF.path = some nIn) (hbuf : unitAt nIn.data inF.f_pos ≠ []) :
    xcrypt.loop env kb (fuel + 1) i inF tmpF ret w
      = if (write_output_file (env.writeRes i) tmpF
            (transform_chunk env kb.flags (kb.keybuf.get []) (unitAt nIn.data inF.f_pos))
            (w.emit (.transform (unitAt nIn.data inF.f_pos).length))).1 = 0
        then .fail (-EINVAL) (write_output_file (env.writeRes i) tmpF
            (transform_chunk env kb.flags (kb.keybuf.get []) (unitAt nIn.data inF.f_pos))
            (w.emit (.transform (unitAt nIn.data inF.f_pos).length))).2.2
        else xcrypt.loop env kb fuel (i + 1)
          { inF with f_pos := inF.f_pos + (unitAt nIn.data inF.f_pos).length }
          (write_output_file (env.writeRes i) tmpF
            (transform_chunk env kb.flags (kb.keybuf.get []) (unitAt nIn.data inF.f_pos))
            (w.emit (.transform (unitAt nIn.data inF.f_pos).length))).2.1
          0
          (write_output_file (env.writeRes i) tmpF
            (transform_chunk env kb.flags (kb.keybuf.get []) (unitAt nIn.data inF.f_pos))
            (w.emit (.transform (unitAt nIn.data inF.f_pos).length))).2.2 := by
  have hrd : read_input_file none inF PAGE_SIZE w
      = (((unitAt nIn.data inF.f_pos).length : Int), unitAt nIn.data inF.f_pos,
          { inF with f_pos := inF.f_pos + (unitAt nIn.data inF.f_pos).length }) :=
    read_input_file_ok inF PAGE_SIZE w nIn hin
  have hlen : 0 < (unitAt nIn.data inF.f_pos).length := List.length_pos.mpr hbuf
  have hposI : (0 : Int) < ((unitAt nIn.data inF.f_pos).length : Int) := by
    exact_mod_cast hlen
  have h00 : ¬ ((0 : Int) < 0) := by decide
  rw [xcrypt.loop]
  rcases hfl with h0 | h1
  · have h01 : ¬ ((0 : Int) = 1) := by decide
    simp only [hr, hrd, gt_iff_lt, hposI, if_true, h0, h01, if_false, xcrypt_aes_decrypt, hc, h00,
      transform_chunk]
  · simp only [hr, hrd, gt_iff_lt, hposI, if_true, h1, xcrypt_aes_encrypt, hc, h00, if_false,
      transform_chunk]

/-- For every behaviour of the collaborators the loop either leaves through a
`goto closeTmpFile` with a non-zero value, or runs to its end and has then
appended `stored` to the temp file, touching no other path. -/
theorem loop_any (env : Env) (kb : KArgs) (hfl : kb.flags = 0 ∨ kb.flags = 1) :
    ∀ (fuel i : Nat) (inF tmpF : File) (ret : Int) (w : World) (nIn nT : Inode),
      w.fs inF.path = some nIn → w.fs tmpF.path = some nT → tmpF.path ≠ inF.path →
      tmpF.f_pos = nT.data.length →
      (∃ r w', xcrypt.loop env kb fuel i inF tmpF ret w = .fail r w' ∧ r ≠ 0) ∨
      (∃ r w', xcrypt.loop env kb fuel i inF tmpF ret w = .done r w' ∧
          w'.fs tmpF.path = some ⟨nT.mode,
            nT.data ++ stored env (transform_chunk env kb.flags (kb.keybuf.get [])) nIn.data
              fuel i inF.f_pos,
            nT.canRead, nT.canWrite⟩ ∧
          ∀ q, q ≠ tmpF.path → w'.fs q = w.fs q) := by
  intro fuel
  induction fuel with
  | zero =>
    intro i inF tmpF ret w nIn nT _ ht _ _
    right
    refine ⟨ret, w, rfl, ?_, fun _ _ => rfl⟩
    rw [ht]
    simp [stored]
  | succ k ih =>
    intro i inF tmpF ret w nIn nT hin ht hne hpos
    cases hrd : env.readErr i with
    | some e =>
      right
      have hneg : ¬ (-((e : Int) + 1) > 0) := by omega
      refine ⟨ret, w, ?_, ?_, fun _ _ => rfl⟩
      · simp only [xcrypt.loop, hrd, read_input_file, hneg, if_false]
      · rw [ht]
        simp [stored, hrd]
    | none =>
      by_cases hbuf : unitAt nIn.data inF.f_pos = []
      · right
        refine ⟨ret, w, loop_eof env kb k i inF tmpF ret w nIn hrd hin hbuf, ?_, fun _ _ => rfl⟩
        rw [ht]
        simp [stored, hrd, hbuf]
      · cases hc : env.cipherErr i with
        | some e =>
          left
          obtain ⟨w', hw'⟩ := loop_cipher_fails env kb k i inF tmpF ret w nIn e hfl hrd hin
            hbuf hc
          exact ⟨_, w', hw', by decide⟩
        | none =>
          have hu := loop_unfold env kb k i inF tmpF ret w nIn hfl hrd hc hin hbuf
          have hulen : 0 < (unitAt nIn.data inF.f_pos).length := List.length_pos.mpr hbuf
          have hclen : (transform_chunk env kb.flags (kb.keybuf.get [])
              (unitAt nIn.data inF.f_pos)).length = (unitAt nIn.data inF.f_pos).length :=
            transform_chunk_length _ _ _ _
          have ht1 : (w.emit (.transform (unitAt nIn.data inF.f_pos).length)).fs tmpF.path
              = some nT := ht
          -- the continuation after `b` has been stored at the end of the temp file
          have cont : ∀ (b : List Byte),
              (∃ r w', xcrypt.loop env kb k (i + 1)
                  { inF with f_pos := inF.f_pos + (unitAt nIn.data inF.f_pos).length }
                  { tmpF with f_pos := nT.data.length + b.length } 0
                  ⟨w.fs.set tmpF.path (some { nT with data := nT.data ++ b }),
                    (w.emit (.transform (unitAt nIn.data inF.f_pos).length)).log
                      ++ [.write tmpF.path b]⟩ = .fail r w' ∧ r ≠ 0) ∨
              (∃ r w', xcrypt.loop env kb k (i + 1)
                  { inF with f_pos := inF.f_pos + (unitAt nIn.data inF.f_pos).length }
                  { tmpF with f_pos := nT.data.length + b.length } 0
                  ⟨w.fs.set tmpF.path (some { nT with data := nT.data ++ b }),
                    (w.emit (.transform (unitAt nIn.data inF.f_pos).length)).log
                      ++ [.write tmpF.path b]⟩ = .done r w' ∧
                w'.fs tmpF.path = some ⟨nT.mode,
                  nT.data ++ (b ++ stored env (transform_chunk env kb.flags (kb.keybuf.get []))
                    nIn.data k (i + 1) (inF.f_pos + (unitAt nIn.data inF.f_pos).length)),
                  nT.canRead, nT.canWrite⟩ ∧
                ∀ q, q ≠ tmpF.path → w'.fs q = w.fs q) := by
            intro b
            rcases ih (i + 1)
                { inF with f_pos := inF.f_pos + (unitAt nIn.data inF.f_pos).length }
                { tmpF with f_pos := nT.data.length + b.length } 0
                ⟨w.fs.set tmpF.path (some { nT with data := nT.data ++ b }),
                  (w.emit (.transform (unitAt nIn.data inF.f_pos).length)).log
                    ++ [.write tmpF.path b]⟩
                nIn { nT with data := nT.data ++ b }
                (by simp only; rw [set_other _ _ (Ne.symm hne)]; exact hin)
                (set_same _ _ _) hne (by simp) with
              ⟨r, w', hf, hr0⟩ | ⟨r, w', hdone, hfs, hoth⟩
            · exact Or.inl ⟨r, w', hf, hr0⟩
            · right
              refine ⟨r, w', hdone, ?_, ?_⟩
              · rw [hfs]
                simp only [List.append_assoc]
              · intro q hq
                rw [hoth q hq]
                exact set_other _ _ hq
          cases hwr : env.writeRes i with
          | full =>
            have hs := vfs_store_end tmpF (transform_chunk env kb.flags (kb.keybuf.get [])
              (unitAt nIn.data inF.f_pos))
              (w.emit (.transform (unitAt nIn.data inF.f_pos).length)) nT ht1 hpos
            have hnz : ¬ (((unitAt nIn.data inF.f_pos).length : Int) = 0) := by omega
            rw [hu, hwr]
            simp only [write_output_file, hs, hclen, hnz, if_false, emit_fs]
            have hst : stored env (transform_chunk env kb.flags (kb.keybuf.get [])) nIn.data
                (k + 1) i inF.f_pos
                = transform_chunk env kb.flags (kb.keybuf.get []) (unitAt nIn.data inF.f_pos)
                  ++ stored env (transform_chunk env kb.flags (kb.keybuf.get [])) nIn.data k
                    (i + 1) (inF.f_pos + (unitAt nIn.data inF.f_pos).length) := by
              simp only [stored, hrd, hbuf, if_false, hwr]
            rw [hst]
            have := cont (transform_chunk env kb.flags (kb.keybuf.get [])
              (unitAt nIn.data inF.f_pos))
            rw [hclen] at this
            exact this
          | short n =>
            have hs := vfs_store_end tmpF ((transform_chunk env kb.flags (kb.keybuf.get [])
              (unitAt nIn.data inF.f_pos)).take n)
              (w.emit (.transform (unitAt nIn.data inF.f_pos).length)) nT ht1 hpos
            have hst : stored env (transform_chunk env kb.flags (kb.keybuf.get [])) nIn.data
                (k + 1) i inF.f_pos
                = (transform_chunk env kb.flags (kb.keybuf.get [])
                    (unitAt nIn.data inF.f_pos)).take n
                  ++ stored env (transform_chunk env kb.flags (kb.keybuf.get [])) nIn.data k
                    (i + 1) (inF.f_pos + (unitAt nIn.data inF.f_pos).length) := by
              simp only [stored, hrd, hbuf, if_false, hwr]
            rw [hu, hwr, hst]
            simp only [write_output_file, hs, emit_fs]
            by_cases hz : ((((transform_chunk env kb.flags (kb.keybuf.get [])
                (unitAt nIn.data inF.f_pos)).take n).length : Nat) : Int) = 0
            · left
              rw [if_pos hz]
              exact ⟨_, _, rfl, by decide⟩
            · rw [if_neg hz]
              exact cont _
          | fail e =>
            have hnz : ¬ (-((e : Int) + 1) = 0) := by omega
            have hst : stored env (transform_chunk env kb.flags (kb.keybuf.get [])) nIn.data
                (k + 1) i inF.f_pos
                = stored env (transform_chunk env kb.flags (kb.keybuf.get [])) nIn.data k
                    (i + 1) (inF.f_pos + (unitAt nIn.data inF.f_pos).length) := by
              simp only [stored, hrd, hbuf, if_false, hwr, List.nil_append]
            rw [hu, hwr, hst]
            simp only [write_output_file, hnz, if_false]
            rcases ih (i + 1)
                { inF with f_pos := inF.f_pos + (unitAt nIn.data inF.f_pos).length }
                tmpF 0 (w.emit (.transform (unitAt nIn.data inF.f_pos).length))
                nIn nT hin ht1 hne hpos with
              ⟨r, w', hf, hr0⟩ | ⟨r, w', hdone, hfs, hoth⟩
            · exact Or.inl ⟨r, w', hf, hr0⟩
            · exact Or.inr ⟨r, w', hdone, hfs, hoth⟩

/-- A streaming stage that ends in 0, whatever the collaborators did: the
destination now holds the temp file content followed by `stored`; the temp
path is gone; other paths are untouched. -/
theorem stream_zero_any (env : Env) (L : Locals) (inF tmpF : File) (ret : Int) (w : World)
    (dst : String) (nIn nT : Inode) (hfl : L.kb.flags = 0 ∨ L.kb.flags = 1)
    (nT' : Inode) (hdst : L.kb.outfile = .kern dst)
    (ht : L.tmp_filp = some (opened tmpF.path nT'))
    (hflag : L.tmp_err_flag = false)
    (hin : w.fs inF.path = some nIn) (hT : w.fs tmpF.path = some nT)
    (hne : tmpF.path ≠ inF.path) (hpos : tmpF.f_pos = nT.data.length)
    (h : (xcrypt.stream env L inF tmpF ret w).1 = 0) :
    inF.path ≠ dst ∧ tmpF.path ≠ dst ∧
    (xcrypt.stream env L inF tmpF ret w).2.fs dst = some ⟨nT.mode,
      nT.data ++ stored env (transform_chunk env L.kb.flags (L.kb.keybuf.get [])) nIn.data
        (nIn.data.length - inF.f_pos + 1) 0 inF.f_pos, nT.canRead, nT.canWrite⟩ ∧
    (xcrypt.stream env L inF tmpF ret w).2.fs tmpF.path = none ∧
    ∀ q, q ≠ dst → q ≠ tmpF.path → (xcrypt.stream env L inF tmpF ret w).2.fs q = w.fs q := by
  unfold xcrypt.stream at h ⊢
  rw [remaining_eq inF w nIn hin] at h ⊢
  rcases loop_any env L.kb hfl (nIn.data.length - inF.f_pos + 1) 0 inF tmpF ret w nIn nT
      hin hT hne hpos with ⟨r, w', hf, hr0⟩ | ⟨r, w', hdone, hfs, hoth⟩
  · rw [hf] at h
    exact absurd h hr0
  · rw [hdone] at h ⊢
    simp only at h ⊢
    obtain ⟨h1, h2, _, h4, h5, h6, _⟩ := commit_zero env L inF r w' dst _ hdst ht hflag h
    simp only [opened] at h2 h4 h5 h6
    refine ⟨h1, h2, ?_, h5, ?_⟩
    · rw [h4, hfs]
    · intro q hq1 hq2
      rw [h6 q hq1 hq2, hoth q hq2]

/-! ## Whole runs -/

theorem tmp_ne (s : String) : s ++ ".tmp" ≠ s := by
  intro h
  have := congrArg String.length h
  rw [String.length_append] at this
  have h4 : ".tmp".length = 4 := by decide
  omega

theorem Accepted.keylen_ge {env : Env} {a : Args} {src dst : String} {mem : List Byte}
    (h : Accepted env a src dst mem) : AES_BLOCK_SIZE ≤ a.keylen := by
  have h1 := h.keyStr
  rw [strlen_append_zero, le_strlen_iff] at h1
  have h2 : (mem.take a.keylen).length = a.keylen := by simp [h.readable]
  omega

theorem Accepted.digest_key {env : Env} {a : Args} {src dst : String} {mem : List Byte}
    (h : Accepted env a src dst mem) :
    ((mem.take a.keylen ++ [0]).take a.keylen).take 1 = mem.take 1 := by
  have h2 : (mem.take a.keylen).length = a.keylen := by simp [h.readable]
  have hk : 1 ≤ a.keylen := Nat.le_trans (by decide) h.keylen_ge
  rw [List.take_left' h2, List.take_take, Nat.min_eq_left hk]

theorem Accepted.cipher_key {env : Env} {a : Args} {src dst : String} {mem : List Byte}
    (h : Accepted env a src dst mem) :
    (mem.take a.keylen ++ [0]).take AES_BLOCK_SIZE = mem.take AES_BLOCK_SIZE := by
  have hk := h.keylen_ge
  have h2 : (mem.take a.keylen).length = a.keylen := by simp [h.readable]
  rw [List.take_append_of_le_length (by omega), List.take_take, Nat.min_eq_left hk]

theorem Accepted.transform_eq {env : Env} {a : Args} {src dst : String} {mem : List Byte}
    (h : Accepted env a src dst mem) :
    transform_chunk env a.flags (mem.take a.keylen ++ [0]) = transform_chunk env a.flags mem := by
  funext c
  simp only [transform_chunk, h.cipher_key]

/-- What a run that returns 0 has done, when no read failed and every
streaming write was complete. -/
theorem xcrypt_zero_result (env : Env) (a : Args) (w : World)
    (hr : ∀ i, env.readErr i = none) (hw : ∀ i, env.writeRes i = .full)
    (h : (xcrypt env a w).1 = 0) :
    ∃ src dst mem nIn nOut, Accepted env a src dst mem ∧
      w.fs src = some nIn ∧ nIn.mode = .reg ∧ src ≠ dst ∧ src ++ ".tmp" ≠ dst ∧
      (a.flags = 0 → AES_BLOCK_SIZE ≤ nIn.data.length ∧
        nIn.data.take AES_BLOCK_SIZE = compute_tag env (mem.take 1)) ∧
      (xcrypt env a w).2.fs dst = some nOut ∧ nOut.mode = .reg ∧ nOut.canWrite = true ∧
      nOut.canRead = ((w.fs (src ++ ".tmp")).map Inode.canRead).getD true ∧
      nOut.data = (if a.flags = 1 then compute_tag env (mem.take 1) else [])
        ++ transformUnits (transform_chunk env a.flags mem)
            (if a.flags = 1 then nIn.data else nIn.data.drop AES_BLOCK_SIZE) ∧
      (xcrypt env a w).2.fs (src ++ ".tmp") = none ∧
      ∀ q, q ≠ dst → q ≠ src ++ ".tmp" → (xcrypt env a w).2.fs q = w.fs q := by
  obtain ⟨src, dst, mem, hacc, hker⟩ := xcrypt_zero env a w h
  obtain ⟨w1, hfs1, _, hx1⟩ := xcrypt_accepted env a w src dst mem hacc hker
  rw [hx1] at h ⊢
  obtain ⟨nIn, hin1, hreg, hrd, ho⟩ := openInput_zero env _ 0 w1 src rfl h
  have hx2 := openInput_ok env ⟨kargs a src dst mem, none, none, none, false⟩ 0 w1 src nIn rfl
    hin1 hreg hrd ho
  rw [hx2] at h ⊢
  obtain ⟨w2, hfs2, _, hx3⟩ := alloc_zero env _ _ _ h
  rw [hx3] at h ⊢
  obtain ⟨tn, w3, htm, htd, htw, htr, hlen, hfs3, _, hx4⟩ := staging_zero env _ _ w2 src rfl h
  rw [hx4] at h ⊢
  have hfsw : w2.fs = w.fs := by rw [hfs2]; exact hfs1
  rw [hfsw] at htr
  have hin : w.fs src = some nIn := by rw [← hfs1]; exact hin1
  have hT3 : w3.fs (src ++ ".tmp") = some tn := by rw [hfs3]; exact set_same _ _ _
  have hin3 : w3.fs src = some nIn := by
    rw [hfs3, set_other _ _ (Ne.symm (tmp_ne src)), hfsw]; exact hin
  have hoth3 : ∀ q, q ≠ src ++ ".tmp" → w3.fs q = w.fs q := by
    intro q hq
    rw [hfs3, set_other _ _ hq, hfsw]
  rcases hacc.flags with hf0 | hf1
  · -- decryption
    have hf1 : a.flags ≠ 1 := by rw [hf0]; decide
    obtain ⟨hl16, htag, hx5⟩ := tag_zero_dec env _ (opened src nIn) (opened (src ++ ".tmp") tn) w3
      (mem.take a.keylen ++ [0]) nIn hf0 rfl hin3 rfl h
    rw [hx5] at h ⊢
    simp only [kargs, hacc.digest_key] at htag
    obtain ⟨h1, h2, h3, h4, h5⟩ := stream_zero env _
      { opened src nIn with f_pos := AES_BLOCK_SIZE } (opened (src ++ ".tmp") tn) 0 w3 dst nIn tn
      (Or.inl hf0) hr hw tn rfl rfl rfl hin3 hT3 (tmp_ne src) (by simp [opened, htd]) h
    refine ⟨src, dst, mem, nIn, _, hacc, hin, hreg, h1, h2, fun _ => ⟨hl16, htag⟩, h3, htm, htw,
      htr, ?_, h4, ?_⟩
    · simp only [kargs, Ptr.get, htd, List.nil_append, hf1, if_false, hacc.transform_eq]
    · intro q hq1 hq2
      rw [h5 q hq1 hq2, hoth3 q hq2]
  · -- encryption
    have hx5 := tag_zero_enc env _ (opened src nIn) (opened (src ++ ".tmp") tn) w3
      (mem.take a.keylen ++ [0]) tn hf1 rfl hT3 htd rfl h
    rw [hx5] at h ⊢
    have hne10 : a.flags ≠ 0 := by rw [hf1]; decide
    obtain ⟨h1, h2, h3, h4, h5⟩ := stream_zero env _ (opened src nIn)
      { opened (src ++ ".tmp") tn with f_pos := AES_BLOCK_SIZE } 0 _ dst nIn
      { tn with data := compute_tag env (((mem.take a.keylen ++ [0]).take a.keylen).take 1) }
      (Or.inr hf1) hr hw tn rfl rfl rfl
      (by simp only [opened]; rw [set_other _ _ (Ne.symm (tmp_ne src))]; exact hin3)
      (by simp only [opened]; exact set_same _ _ _) (tmp_ne src)
      (by simp [opened, compute_tag, env.P.digest_len]) h
    refine ⟨src, dst, mem, nIn, _, hacc, hin, hreg, h1, h2, fun h0 => absurd h0 hne10, h3, htm,
      htw, htr, ?_, h4, ?_⟩
    · simp only [kargs, Ptr.get, hacc.transform_eq, hacc.digest_key, opened, List.drop_zero]
      simp only [hf1, if_true]
    · intro q hq1 hq2
      rw [h5 q hq1 hq2]
      simp only [opened]
      rw [set_other _ _ hq2, hoth3 q hq2]

/-- A run succeeds when nothing fails, the request is accepted, the source is
a readable regular file, the temp path and the destination are usable and
differ from the source and from each other, and (for decryption) the source
starts with the digest of the first key byte. -/
theorem xcrypt_ok (env : Env) (a : Args) (w : World) (src dst : String) (mem : List Byte)
    (nIn : Inode) (hnf : NoFault env) (hacc : Accepted env a src dst mem)
    (hin : w.fs src = some nIn) (hreg : nIn.mode = .reg) (hread : nIn.canRead = true)
    (hlen : (src ++ ".tmp").length ≤ PATH_MAX)
    (hu1 : Usable w.fs (src ++ ".tmp")) (hu2 : Usable w.fs dst)
    (hne1 : src ≠ dst) (hne2 : src ++ ".tmp" ≠ dst)
    (hdec : a.flags = 0 → AES_BLOCK_SIZE ≤ nIn.data.length ∧
      nIn.data.take AES_BLOCK_SIZE = compute_tag env (mem.take 1)) :
    (xcrypt env a w).1 = 0 := by
  obtain ⟨w1, hfs1, _, hx1⟩ := xcrypt_accepted env a w src dst mem hacc (hnf.kmalloc _)
  rw [hx1]
  have hin1 : w1.fs src = some nIn := by rw [hfs1]; exact hin
  rw [openInput_ok env ⟨kargs a src dst mem, none, none, none, false⟩ 0 w1 src nIn rfl
    hin1 hreg hread (hnf.opens _)]
  obtain ⟨w2, hfs2, _, hx3⟩ := alloc_ok env
    { (⟨kargs a src dst mem, none, none, none, false⟩ : Locals) with
      in_filp := some (opened src nIn) }
    (opened src nIn) (w1.emit (.acquire .in_filp)) hnf.kmalloc hreg
  rw [hx3]
  have hfsw : w2.fs = w.fs := by rw [hfs2]; exact hfs1
  obtain ⟨tn, w3, htm, htd, _, _, hfs3, _, hx4⟩ := staging_ok env
    { (⟨kargs a src dst mem, none, none, none, false⟩ : Locals) with
      in_filp := some (opened src nIn) }
    (opened src nIn) w2 src rfl hlen (hnf.opens _) (by rw [hfsw]; exact hu1)
  rw [hx4]
  have hT3 : w3.fs (src ++ ".tmp") = some tn := by rw [hfs3]; exact set_same _ _ _
  have hoth3 : ∀ q, q ≠ src ++ ".tmp" → w3.fs q = w.fs q := by
    intro q hq
    rw [hfs3, set_other _ _ hq, hfsw]
  have hin3 : w3.fs src = some nIn := by
    rw [hoth3 _ (Ne.symm (tmp_ne src))]; exact hin
  have hu3 : Usable w3.fs dst := by
    intro n hn
    rw [hoth3 _ (Ne.symm hne2)] at hn
    exact hu2 n hn
  rcases hacc.flags with hf0 | hf1
  · obtain ⟨hl16, htag⟩ := hdec hf0
    rw [tag_ok_dec env _ (opened src nIn) (opened (src ++ ".tmp") tn) w3
      (mem.take a.keylen ++ [0]) nIn hf0 rfl hnf.md5 hnf.tagRead hin3 rfl hl16
      (by simpa only [kargs, hacc.digest_key] using htag)]
    exact stream_ok env _ { opened src nIn with f_pos := AES_BLOCK_SIZE }
      (opened (src ++ ".tmp") tn) 0 w3 dst nIn tn (Or.inl hf0) hnf tn rfl rfl hin3 hT3
      (tmp_ne src) (by simp [opened, htd]) hu3 hne1 hne2 hreg
  · rw [tag_ok_enc env _ (opened src nIn) (opened (src ++ ".tmp") tn) w3
      (mem.take a.keylen ++ [0]) tn hf1 rfl hnf.md5 hnf.tagWrite hT3 htd rfl]
    refine stream_ok env _ (opened src nIn)
      { opened (src ++ ".tmp") tn with f_pos := AES_BLOCK_SIZE } 0 _ dst nIn
      { tn with data := compute_tag env (((mem.take a.keylen ++ [0]).take a.keylen).take 1) }
      (Or.inr hf1) hnf tn rfl rfl
      (by simp only [opened]; rw [set_other _ _ (Ne.symm (tmp_ne src))]; exact hin3)
      (by simp only [opened]; exact set_same _ _ _) (tmp_ne src)
      (by simp [opened, compute_tag, env.P.digest_len]) ?_ hne1 hne2 hreg
    intro n hn
    simp only [opened] at hn
    rw [set_other _ _ (Ne.symm hne2)] at hn
    exact hu3 n hn

/-- What an encryption that returns 0 has done, whatever the collaborators
did: the destination holds the digest of the first key byte followed by
`stored` for the cipher keyed with the first `AES_BLOCK_SIZE` key bytes. -/
theorem xcrypt_zero_enc (env : Env) (a : Args) (w : World) (hf1 : a.flags = 1)
    (h : (xcrypt env a w).1 = 0) :
    ∃ src dst mem nIn nOut, Accepted env a src dst mem ∧
      w.fs src = some nIn ∧ (xcrypt env a w).2.fs dst = some nOut ∧
      nOut.data = compute_tag env (mem.take 1)
        ++ stored env (transform_chunk env 1 (mem.take AES_BLOCK_SIZE)) nIn.data
            (nIn.data.length + 1) 0 0 := by
  obtain ⟨src, dst, mem, hacc, hker⟩ := xcrypt_zero env a w h
  obtain ⟨w1, hfs1, _, hx1⟩ := xcrypt_accepted env a w src dst mem hacc hker
  rw [hx1] at h ⊢
  obtain ⟨nIn, hin1, hreg, hrd, ho⟩ := openInput_zero env _ 0 w1 src rfl h
  have hx2 := openInput_ok env ⟨kargs a src dst mem, none, none, none, false⟩ 0 w1 src nIn rfl
    hin1 hreg hrd ho
  rw [hx2] at h ⊢
  obtain ⟨w2, hfs2, _, hx3⟩ := alloc_zero env _ _ _ h
  rw [hx3] at h ⊢
  obtain ⟨tn, w3, _, htd, _, _, _, hfs3, _, hx4⟩ := staging_zero env _ _ w2 src rfl h
  rw [hx4] at h ⊢
  have hfsw : w2.fs = w.fs := by rw [hfs2]; exact hfs1
  have hin : w.fs src = some nIn := by rw [← hfs1]; exact hin1
  have hT3 : w3.fs (src ++ ".tmp") = some tn := by rw [hfs3]; exact set_same _ _ _
  have hin3 : w3.fs src = some nIn := by
    rw [hfs3, set_other _ _ (Ne.symm (tmp_ne src)), hfsw]; exact hin
  have hx5 := tag_zero_enc env _ (opened src nIn) (opened (src ++ ".tmp") tn) w3
    (mem.take a.keylen ++ [0]) tn hf1 rfl hT3 htd rfl h
  rw [hx5] at h ⊢
  obtain ⟨_, _, h3, _, _⟩ := stream_zero_any env _ (opened src nIn)
    { opened (src ++ ".tmp") tn with f_pos := AES_BLOCK_SIZE } 0 _ dst nIn
    { tn with data := compute_tag env (((mem.take a.keylen ++ [0]).take a.keylen).take 1) }
    (Or.inr hf1) tn rfl rfl rfl
    (by simp only [opened]; rw [set_other _ _ (Ne.symm (tmp_ne src))]; exact hin3)
    (by simp only [opened]; exact set_same _ _ _) (tmp_ne src)
    (by simp [opened, compute_tag, env.P.digest_len]) h
  have hkey : transform_chunk env 1 (mem.take a.keylen ++ [0])
      = transform_chunk env 1 (mem.take AES_BLOCK_SIZE) := by
    funext c
    simp only [transform_chunk, hacc.cipher_key, List.take_take, Nat.min_self]
  refine ⟨src, dst, mem, nIn, _, hacc, hin, h3, ?_⟩
  simp only [kargs, Ptr.get, hacc.digest_key, opened, hf1, hkey, Nat.sub_zero]

/-! ## Facts about the concrete instance and small helpers -/

theorem usable_of_none (fs : FS) (p : String) (h : fs p = none) : Usable fs p := by
  intro n hn
  rw [h] at hn
  exact absurd hn (by simp)

theorem usable_of_some (fs : FS) (p : String) (n : Inode) (h : fs p = some n)
    (hm : n.mode = .reg) (hr : n.canRead = true) (hw : n.canWrite = true) : Usable fs p := by
  intro m hm'
  rw [h] at hm'
  rw [← Option.some.inj hm']
  exact ⟨hm, hr, hw⟩

theorem tmp_inj (a b : String) (h : a ++ ".tmp" = b ++ ".tmp") : a = b := by
  have h' := congrArg String.data h
  rw [String.data_append, String.data_append] at h'
  exact String.ext (List.append_cancel_right h')

/-- Every unit but the last is exactly `n` bytes long. -/
theorem units_dropLast_full (n : Nat) (hn : 0 < n) :
    ∀ (k : Nat) (l : List Byte), l.length ≤ k → ∀ c ∈ (units n l).dropLast, c.length = n := by
  intro k
  induction k with
  | zero =>
    intro l h c hc
    have : l = [] := List.length_eq_zero.mp (Nat.le_zero.mp h)
    subst this
    simp [units_nil] at hc
  | succ k ih =>
    intro l h c hc
    by_cases hl : l = []
    · subst hl
      simp [units_nil] at hc
    · have hpos : 0 < l.length := List.length_pos.mpr hl
      rw [units_cons n hn l hl] at hc
      by_cases hr : l.drop n = []
      · rw [hr, units_nil] at hc
        simp at hc
      · have hru : units n (l.drop n) ≠ [] := by
          rw [units_cons n hn _ hr]
          simp
        rw [List.dropLast_cons_of_ne_nil hru] at hc
        rcases List.mem_cons.mp hc with h1 | h2
        · subst h1
          have hlt : n < l.length := by
            by_contra hc'
            exact hr (List.drop_eq_nil_of_le (by omega))
          rw [List.length_take]
          omega
        · exact ih (l.drop n) (by rw [List.length_drop]; omega) c h2

theorem accepted_of (env : Env) (src dst : String) (mem : List Byte) (keylen : Nat)
    (flags : Int) (hfl : flags = 0 ∨ flags = 1) (hk : ∀ r, env.kmallocFails r = false)
    (hkey : keylen ≤ mem.length) (hk16 : AES_BLOCK_SIZE ≤ keylen)
    (hnz : ∀ b ∈ mem.take AES_BLOCK_SIZE, b ≠ 0)
    (hl1 : src.length ≤ PATH_MAX) (hl2 : dst.length ≤ PATH_MAX) :
    Accepted env ⟨some src, some dst, some mem, keylen, flags⟩ src dst mem := by
  refine ⟨rfl, rfl, rfl, hkey, hfl, hl1, hl2, ?_, hk _, hk _⟩
  apply Nat.not_lt.mp
  intro hlt
  rcases (key_short_iff mem keylen hkey).mp hlt with h | ⟨b, hb, hb0⟩
  · exact absurd hk16 (Nat.not_le.mpr h)
  · exact hnz b hb hb0

theorem length_le_of_tmp (s : String) (h : (s ++ ".tmp").length ≤ PATH_MAX) :
    s.length ≤ PATH_MAX := by
  rw [String.length_append] at h
  omega

theorem Demo.noFault : NoFault Demo.env :=
  ⟨fun _ => rfl, fun _ => rfl, rfl, rfl, rfl, fun _ => rfl, fun _ => rfl, fun _ => rfl, rfl⟩

theorem Demo.dec_enc (k iv b : List Byte) : Demo.prims.dec k iv (Demo.prims.enc k iv b) = b := by
  simp only [Demo.prims, List.map_map]
  have : ((fun x => x ^^^ (k.sum + iv.sum)) ∘ fun x => x ^^^ (k.sum + iv.sum)) = id := by
    funext x
    simp [Nat.xor_assoc]
  rw [this, List.map_id]

/-! ## The claims -/

/-! ### C1: Round trip -/

/-- C1 (amended): round trip.  Let the key have at least 16 bytes, none of
its first 16 bytes zero, and let the cipher's decrypt invert its encrypt.
With no collaborator fault, a regular readable source, paths within the
limit, usable temp and destination paths, and source, temp file and
destination pairwise different in both runs, encrypting `src` into `enc` and
then decrypting `enc` into `out` with the same key returns 0 both times, and
`out` then holds exactly the bytes of `src`. -/
theorem roundtrip (env : Env) (hnf : NoFault env)
    (hinv : ∀ k iv b, env.P.dec k iv (env.P.enc k iv b) = b)
    (w : World) (src enc out : String) (mem : List Byte) (keylen : Nat) (nIn : Inode)
    (hsrc : w.fs src = some nIn) (hreg : nIn.mode = .reg) (hread : nIn.canRead = true)
    (hkey : keylen ≤ mem.length) (hk16 : AES_BLOCK_SIZE ≤ keylen)
    (hnz : ∀ b ∈ mem.take AES_BLOCK_SIZE, b ≠ 0)
    (hl1 : (src ++ ".tmp").length ≤ PATH_MAX) (hl2 : (enc ++ ".tmp").length ≤ PATH_MAX)
    (hl3 : out.length ≤ PATH_MAX)
    (hu1 : Usable w.fs (src ++ ".tmp")) (hu2 : Usable w.fs enc)
    (hu3 : Usable w.fs (enc ++ ".tmp")) (hu4 : Usable w.fs out)
    (hd1 : src ≠ enc) (hd2 : src ++ ".tmp" ≠ enc) (hd3 : enc ≠ out)
    (hd4 : enc ++ ".tmp" ≠ out) :
    (xcrypt env (encryptRequest src enc mem keylen) w).1 = 0 ∧
    (xcrypt env (decryptRequest enc out mem keylen)
      (xcrypt env (encryptRequest src enc mem keylen) w).2).1 = 0 ∧
    ∃ n, (xcrypt env (decryptRequest enc out mem keylen)
        (xcrypt env (encryptRequest src enc mem keylen) w).2).2.fs out = some n ∧
      n.data = nIn.data := by
  have hacc1 : Accepted env (encryptRequest src enc mem keylen) src enc mem :=
    accepted_of env src enc mem keylen 1 (Or.inr rfl) hnf.kmalloc hkey hk16 hnz
      (length_le_of_tmp src hl1) (length_le_of_tmp enc hl2)
  have hacc2 : Accepted env (decryptRequest enc out mem keylen) enc out mem :=
    accepted_of env enc out mem keylen 0 (Or.inl rfl) hnf.kmalloc hkey hk16 hnz
      (length_le_of_tmp enc hl2) hl3
  have h1 : (xcrypt env (encryptRequest src enc mem keylen) w).1 = 0 :=
    xcrypt_ok env _ w src enc mem nIn hnf hacc1 hsrc hreg hread hl1 hu1 hu2 hd1 hd2
      (fun h0 => absurd h0 (by decide : ¬ ((1 : Int) = 0)))
  obtain ⟨src', dst', mem', nIn', nOut, hacc, hin, _, _, _, _, hout, hmode, _, hcr, hdata,
    htmp, hoth⟩ := xcrypt_zero_result env _ w hnf.reads hnf.writes h1
  have e1 : src = src' := Option.some.inj hacc.infile
  have e2 : enc = dst' := Option.some.inj hacc.outfile
  have e3 : mem = mem' := Option.some.inj hacc.keybuf
  subst e1 e2 e3
  have e4 : nIn' = nIn := Option.some.inj (hin.symm.trans hsrc)
  subst e4
  have hdata' : nOut.data = compute_tag env (mem.take 1)
      ++ transformUnits (transform_chunk env 1 mem) nIn'.data := hdata
  have htl : (compute_tag env (mem.take 1)).length = AES_BLOCK_SIZE := env.P.digest_len _
  have hcr' : nOut.canRead = true := by
    rw [hcr]
    cases hx : w.fs (src ++ ".tmp") with
    | none => rfl
    | some n => exact (hu1 n hx).2.1
  have hu3' : Usable (xcrypt env (encryptRequest src enc mem keylen) w).2.fs (enc ++ ".tmp") := by
    intro n hn
    rw [hoth _ (tmp_ne enc) (fun hc => hd1 (tmp_inj _ _ hc).symm)] at hn
    exact hu3 n hn
  have hu4' : Usable (xcrypt env (encryptRequest src enc mem keylen) w).2.fs out := by
    by_cases ho : out = src ++ ".tmp"
    · rw [ho]
      exact usable_of_none _ _ htmp
    · intro n hn
      rw [hoth _ (Ne.symm hd3) ho] at hn
      exact hu4 n hn
  have hdec2 : (decryptRequest enc out mem keylen).flags = 0 →
      AES_BLOCK_SIZE ≤ nOut.data.length ∧
      nOut.data.take AES_BLOCK_SIZE = compute_tag env (mem.take 1) := by
    intro _
    rw [hdata']
    refine ⟨?_, List.take_left' htl⟩
    rw [List.length_append, htl]
    exact Nat.le_add_right _ _
  have h2 := xcrypt_ok env _ (xcrypt env (encryptRequest src enc mem keylen) w).2 enc out mem
    nOut hnf hacc2 hout hmode hcr' hl2 hu3' hu4' hd3 hd4 hdec2
  refine ⟨h1, h2, ?_⟩
  obtain ⟨src2, dst2, mem2, nIn2, nOut2, hacc', hin', _, _, _, _, hout', _, _, _, hdata2, _, _⟩ :=
    xcrypt_zero_result env _ _ hnf.reads hnf.writes h2
  have e1 : enc = src2 := Option.some.inj hacc'.infile
  have e2 : out = dst2 := Option.some.inj hacc'.outfile
  have e3 : mem = mem2 := Option.some.inj hacc'.keybuf
  subst e1 e2 e3
  have e4 : nIn2 = nOut := Option.some.inj (hin'.symm.trans hout)
  subst e4
  refine ⟨nOut2, hout', ?_⟩
  have hdata3 : nOut2.data = [] ++ transformUnits (transform_chunk env 0 mem)
      (nIn2.data.drop AES_BLOCK_SIZE) := hdata2
  rw [hdata3, hdata', List.drop_left' htl, List.nil_append]
  refine transformUnits_inverse _ _ (transform_chunk_length env 1 mem) ?_ _ _ (Nat.le_refl _)
  intro c
  simp only [transform_chunk, if_true]
  exact hinv _ _ _

/-- C1, on the instance: `a` is encrypted into `b` and `b` decrypted into `c`
with the 16-byte key; both runs return 0 and `c` holds the bytes of `a`. -/
theorem roundtrip_witness :
    (∀ b ∈ Demo.key.take AES_BLOCK_SIZE, b ≠ 0) ∧
    (xcrypt Demo.env (encryptRequest "a" "b" Demo.key 16) Demo.world).1 = 0 ∧
    (xcrypt Demo.env (decryptRequest "b" "c" Demo.key 16)
      (xcrypt Demo.env (encryptRequest "a" "b" Demo.key 16) Demo.world).2).1 = 0 ∧
    ∃ n, (xcrypt Demo.env (decryptRequest "b" "c" Demo.key 16)
        (xcrypt Demo.env (encryptRequest "a" "b" Demo.key 16) Demo.world).2).2.fs "c" = some n ∧
      n.data = [10, 20, 30] :=
  ⟨by decide,
    roundtrip Demo.env Demo.noFault Demo.dec_enc Demo.world "a" "b" "c" Demo.key 16
      ⟨.reg, [10, 20, 30], true, true⟩ (by decide) rfl rfl (by decide) (by decide) (by decide)
      (by decide) (by decide) (by decide)
      (usable_of_none _ _ (by decide)) (usable_of_none _ _ (by decide))
      (usable_of_none _ _ (by decide)) (usable_of_none _ _ (by decide))
      (by decide) (by decide) (by decide) (by decide)⟩

/-- C1: the key `0 :: key` has 17 bytes, and the encryption run with it is
rejected with `-EINVAL`. -/
theorem roundtrip_rejects_key_with_zero_byte :
    16 ≤ (0 :: Demo.key).length ∧
    (xcrypt Demo.env (Demo.request "a" "b" (0 :: Demo.key) 1) Demo.world).1 = -EINVAL := by
  decide

/-! ### C2: On-disk format -/

/-- C2: the tag on disk is the digest of the first key byte.  When an
encryption returns 0, whatever the collaborators did, the key has at least 16
bytes and the first 16 bytes of the destination are the digest of the first
key byte alone; they are not `compute_tag` of the key whenever the digest of
the key differs from the digest of its first byte. -/
theorem encrypt_tag_digests_first_key_byte (env : Env) (w : World) (src dst : String)
    (mem : List Byte) (keylen : Nat)
    (h : (xcrypt env (encryptRequest src dst mem keylen) w).1 = 0) :
    AES_BLOCK_SIZE ≤ keylen ∧
    ∃ nOut, (xcrypt env (encryptRequest src dst mem keylen) w).2.fs dst = some nOut ∧
      nOut.data.take AES_BLOCK_SIZE = compute_tag env ((mem.take keylen).take 1) ∧
      (compute_tag env (mem.take keylen) ≠ compute_tag env ((mem.take keylen).take 1) →
        nOut.data.take AES_BLOCK_SIZE ≠ compute_tag env (mem.take keylen)) := by
  obtain ⟨src', dst', mem', nIn, nOut, hacc, _, hout, hdata⟩ := xcrypt_zero_enc env _ w rfl h
  have e2 : dst = dst' := Option.some.inj hacc.outfile
  have e3 : mem = mem' := Option.some.inj hacc.keybuf
  subst e2 e3
  have hk : AES_BLOCK_SIZE ≤ keylen := hacc.keylen_ge
  have h1 : (mem.take keylen).take 1 = mem.take 1 := by
    rw [List.take_take, Nat.min_eq_left (Nat.le_trans (by decide) hk)]
  have htl : (compute_tag env (mem.take 1)).length = AES_BLOCK_SIZE := env.P.digest_len _
  have htag : nOut.data.take AES_BLOCK_SIZE = compute_tag env ((mem.take keylen).take 1) := by
    rw [h1, hdata, List.take_left' htl]
  refine ⟨hk, nOut, hout, htag, fun hne => ?_⟩
  rw [htag]
  exact Ne.symm hne

/-- C2, on the instance: encrypting the 3-byte file `a` into `b` with the
16-byte key returns 0 and `b` has 19 bytes; the first 16 bytes of `b` are the
digest of the key byte `1`, which is not the digest of the key. -/
theorem encrypt_tag_digests_first_key_byte_witness :
    (xcrypt Demo.env (encryptRequest "a" "b" Demo.key 16) Demo.world).1 = 0 ∧
    ((xcrypt Demo.env (encryptRequest "a" "b" Demo.key 16) Demo.world).2.fs "b").map
      (fun n => n.data.length) = some 19 ∧
    compute_tag Demo.env (Demo.key.take 16) ≠ compute_tag Demo.env ((Demo.key.take 16).take 1) ∧
    (AES_BLOCK_SIZE ≤ 16 ∧
      ∃ nOut, (xcrypt Demo.env (encryptRequest "a" "b" Demo.key 16) Demo.world).2.fs "b"
          = some nOut ∧
        nOut.data.take AES_BLOCK_SIZE = compute_tag Demo.env ((Demo.key.take 16).take 1) ∧
        (compute_tag Demo.env (Demo.key.take 16)
            ≠ compute_tag Demo.env ((Demo.key.take 16).take 1) →
          nOut.data.take AES_BLOCK_SIZE ≠ compute_tag Demo.env (Demo.key.take 16))) :=
  ⟨by decide, by decide, by decide,
    encrypt_tag_digests_first_key_byte Demo.env Demo.world "a" "b" Demo.key 16 (by decide)⟩

/-! ### C3: Wrong-key detection -/

/-- C3: a wrong key that shares its first byte with the right one is
accepted.  `a` is encrypted into `x` with `key3`; decrypting `x` into `y`
with `key`, which differs from `key3` in its second byte, returns 0 and
installs `y`, whose bytes are not those of `a`.  And decrypting `enc` with
`key2`, whose first byte differs, to the destination `enc.tmp` returns
`-EPERM`, yet the destination, which held three bytes before the run, no
longer exists. -/
theorem wrong_key_with_same_first_byte_accepted :
    Demo.key ≠ Demo.key3 ∧
    (xcrypt Demo.env (encryptRequest "a" "x" Demo.key3 16) Demo.world).1 = 0 ∧
    (xcrypt Demo.env (decryptRequest "x" "y" Demo.key 16)
      (xcrypt Demo.env (encryptRequest "a" "x" Demo.key3 16) Demo.world).2).1 = 0 ∧
    (Demo.world.fs "a").map Inode.data = some [10, 20, 30] ∧
    ((xcrypt Demo.env (decryptRequest "x" "y" Demo.key 16)
      (xcrypt Demo.env (encryptRequest "a" "x" Demo.key3 16) Demo.world).2).2.fs "y").map
        Inode.data = some [11, 21, 31] ∧
    (xcrypt Demo.env (decryptRequest "enc" "enc.tmp" Demo.key2 16) Demo.world).1 = -EPERM ∧
    Demo.world.fs "enc.tmp" = some ⟨.reg, [5, 5, 5], true, true⟩ ∧
    (xcrypt Demo.env (decryptRequest "enc" "enc.tmp" Demo.key2 16) Demo.world).2.fs "enc.tmp"
      = none := by
  decide

/-! ### C4: Failure atomicity -/

/-- C4: encrypting `a` to the device `dev` fails (the value returned is not
0) and leaves the staging file `a.tmp`, holding tag and ciphertext, in place;
and when the rename fails for the fresh destination `b`, the run fails and
leaves `b` behind as an empty file. -/
theorem staging_left_behind_on_failure :
    (xcrypt Demo.env (Demo.request "a" "dev" Demo.key 1) Demo.world).1 ≠ 0 ∧
    Demo.world.fs "a.tmp" = none ∧
    ((xcrypt Demo.env (Demo.request "a" "dev" Demo.key 1) Demo.world).2.fs "a.tmp").isSome = true ∧
    (xcrypt { Demo.env with renameFails := true } (Demo.request "a" "b" Demo.key 1) Demo.world).1 = -EACCES ∧
    Demo.world.fs "b" = none ∧
    (xcrypt { Demo.env with renameFails := true } (Demo.request "a" "b" Demo.key 1) Demo.world).2.fs "b"
      = some ⟨.reg, [], true, true⟩ := by
  decide

/-! ### C5: Self-transform guard -/

/-- C6: when the first streaming read returns an error, and also when every
streaming write stores one byte only or returns an error, `xcrypt`
returns 0 and installs a destination that lacks payload bytes. -/
theorem io_fault_returns_success :
    (xcrypt { Demo.env with readErr := fun _ => some 4 } (Demo.request "a" "b" Demo.key 1) Demo.world).1 = 0 ∧
    ((xcrypt { Demo.env with readErr := fun _ => some 4 } (Demo.request "a" "b" Demo.key 1) Demo.world).2.fs "b").map
      (fun n => n.data.length) = some 16 ∧
    (xcrypt { Demo.env with writeRes := fun _ => .short 1 } (Demo.request "a" "b" Demo.key 1) Demo.world).1 = 0 ∧
    ((xcrypt { Demo.env with writeRes := fun _ => .short 1 } (Demo.request "a" "b" Demo.key 1) Demo.world).2.fs "b").map
      (fun n => n.data.length) = some 17 ∧
    (xcrypt { Demo.env with writeRes := fun _ => .fail 4 } (Demo.request "a" "b" Demo.key 1) Demo.world).1 = 0 ∧
    ((xcrypt { Demo.env with writeRes := fun _ => .fail 4 } (Demo.request "a" "b" Demo.key 1) Demo.world).2.fs "b").map
      (fun n => n.data.length) = some 16 := by
  decide

/-! ### C7: Result shape -/

/-- C7: encrypting `a` to the device `dev` returns the positive value 1 and
leaves `dev` as it was; the same value comes back when the staging path
`enc.tmp` of a decryption is a device. -/
theorem returns_positive_one :
    (xcrypt Demo.env (Demo.request "a" "dev" Demo.key 1) Demo.world).1 = 1 ∧
    (xcrypt Demo.env (Demo.request "a" "dev" Demo.key 1) Demo.world).2.fs "dev" = Demo.world.fs "dev" ∧
    (xcrypt Demo.env (Demo.request "enc" "b" Demo.key 0)
      ⟨Demo.world.fs.set "enc.tmp" (some ⟨.other, [], true, true⟩), []⟩).1 = 1 := by
  decide

/-! ### C8: Request validation -/

/-- C8 (amended): for a request with three non-NULL pointers and readable key
memory, and with the allocations succeeding, `CopyFromUser` rejects the
request if and only if the direction is not 0 or 1, or a path is longer than
`PATH_MAX`, or `key_len < 16`, or one of the first 16 key bytes is zero.  A
rejected request makes `xcrypt` return `-EPERM` (direction) or `-EINVAL`
(the other cases) with the file system unchanged and no file opened. -/
theorem validation_rejects_iff (env : Env) (w : World) (src dst : String) (mem : List Byte)
    (keylen : Nat) (flags : Int) (hmem : keylen ≤ mem.length)
    (hker : env.kmallocFails .ker_buf = false)
    (hin : env.kmallocFails .infile = false) (hkey : env.kmallocFails .keybuf = false) :
    ((CopyFromUser env ⟨some src, some dst, some mem, keylen, flags⟩ w).1 ≠ 0 ↔
      ((flags ≠ 0 ∧ flags ≠ 1) ∨ PATH_MAX < src.length ∨ PATH_MAX < dst.length
        ∨ keylen < AES_BLOCK_SIZE ∨ ∃ b ∈ mem.take AES_BLOCK_SIZE, b = 0)) ∧
    ((CopyFromUser env ⟨some src, some dst, some mem, keylen, flags⟩ w).1 ≠ 0 →
      (xcrypt env ⟨some src, some dst, some mem, keylen, flags⟩ w).1
        = (if flags ≠ 0 ∧ flags ≠ 1 then -EPERM else -EINVAL) ∧
      (xcrypt env ⟨some src, some dst, some mem, keylen, flags⟩ w).2.fs = w.fs ∧
      openEvents (xcrypt env ⟨some src, some dst, some mem, keylen, flags⟩ w).2.log
        = openEvents w.log) := by
  have hcode := CopyFromUser_code env w src dst mem keylen flags hmem hin hkey
  have hcode' := CopyFromUser_code env (w.emit (.acquire .ker_buf)) src dst mem keylen flags
    hmem hin hkey
  have hks := key_short_iff mem keylen hmem
  constructor
  · rw [hcode]
    by_cases hf : flags ≠ 0 ∧ flags ≠ 1
    · simp [hf, EPERM]
    · by_cases hb : PATH_MAX < src.length ∨ PATH_MAX < dst.length
          ∨ strlen (mem.take keylen ++ [0]) < AES_BLOCK_SIZE
      · rw [if_neg hf, if_pos hb]
        simp only [ne_eq, neg_eq_zero, EINVAL, OfNat.ofNat_ne_zero, not_false_eq_true, true_iff]
        rcases hb with h | h | h
        · exact Or.inr (Or.inl h)
        · exact Or.inr (Or.inr (Or.inl h))
        · exact Or.inr (Or.inr (Or.inr (hks.mp h)))
      · rw [if_neg hf, if_neg hb]
        simp only [ne_eq, not_true_eq_false, false_iff]
        rintro (h | h | h | h)
        · exact hf h
        · exact hb (Or.inl h)
        · exact hb (Or.inr (Or.inl h))
        · exact hb (Or.inr (Or.inr (hks.mpr h)))
  · intro hrej
    have hrej' : (CopyFromUser env ⟨some src, some dst, some mem, keylen, flags⟩
        (w.emit (.acquire .ker_buf))).1 ≠ 0 := by
      rw [hcode']; rw [hcode] at hrej; exact hrej
    obtain ⟨h1, h2, h3⟩ := xcrypt_of_rejected env _ w hker hrej'
    refine ⟨?_, h2, h3⟩
    rw [h1, hcode']
    rw [hcode] at hrej
    by_cases hf : flags ≠ 0 ∧ flags ≠ 1
    · simp [hf]
    · rw [if_neg hf] at hrej ⊢
      rw [if_neg hf]
      split_ifs at hrej ⊢ with hb
      · rfl
      · exact absurd rfl hrej

/-- C8, on the instance: the request for `a` and `b` with direction 1 and the
17-byte key `0 :: key` is rejected, and `xcrypt` returns `-EINVAL` without
touching the file system or opening a file. -/
theorem validation_rejects_iff_witness :
    ((CopyFromUser Demo.env ⟨some "a", some "b", some (0 :: Demo.key), 17, 1⟩ Demo.world).1 ≠ 0 ↔
      (((1 : Int) ≠ 0 ∧ (1 : Int) ≠ 1) ∨ PATH_MAX < "a".length ∨ PATH_MAX < "b".length
        ∨ 17 < AES_BLOCK_SIZE ∨ ∃ b ∈ (0 :: Demo.key).take AES_BLOCK_SIZE, b = 0)) ∧
    ((CopyFromUser Demo.env ⟨some "a", some "b", some (0 :: Demo.key), 17, 1⟩ Demo.world).1 ≠ 0 →
      (xcrypt Demo.env ⟨some "a", some "b", some (0 :: Demo.key), 17, 1⟩ Demo.world).1
        = (if (1 : Int) ≠ 0 ∧ (1 : Int) ≠ 1 then -EPERM else -EINVAL) ∧
      (xcrypt Demo.env ⟨some "a", some "b", some (0 :: Demo.key), 17, 1⟩ Demo.world).2.fs
        = Demo.world.fs ∧
      openEvents (xcrypt Demo.env ⟨some "a", some "b", some (0 :: Demo.key), 17, 1⟩
        Demo.world).2.log = openEvents Demo.world.log) :=
  validation_rejects_iff Demo.env Demo.world "a" "b" (0 :: Demo.key) 17 1 (by decide) rfl rfl rfl

/-- C8: direction 1, both paths one byte long, `key_len = 17`, and the
request is rejected with `-EINVAL` because the first key byte is zero. -/
theorem validation_rejects_long_key_with_zero_byte :
    (Demo.request "a" "b" (0 :: Demo.key) 1).flags = 1 ∧
    (Demo.request "a" "b" (0 :: Demo.key) 1).keylen = 17 ∧
    ("a".length ≤ PATH_MAX ∧ "b".length ≤ PATH_MAX) ∧
    (CopyFromUser Demo.env (Demo.request "a" "b" (0 :: Demo.key) 1) Demo.world).1 = -EINVAL := by
  decide

/-! ### C9: Resource symmetry -/

/-- C9: a request whose key has three bytes is rejected inside
`CopyFromUser` with `-EINVAL`; the three request buffers were acquired once
and are released twice.  A request with direction 2 is rejected with
`-EPERM`; the request buffers were never acquired and are released once. -/
theorem request_buffers_released_twice :
    (xcrypt Demo.env (Demo.request "a" "b" [1, 2, 3] 1) Demo.world).1 = -EINVAL ∧
    (xcrypt Demo.env (Demo.request "a" "b" [1, 2, 3] 1) Demo.world).2.log
      = [.acquire .ker_buf, .acquire .infile, .acquire .outfile, .acquire .keybuf,
         .release .keybuf, .release .outfile, .release .infile,
         .release .infile, .release .outfile, .release .keybuf, .release .ker_buf] ∧
    (xcrypt Demo.env (Demo.request "a" "b" Demo.key 2) Demo.world).1 = -EPERM ∧
    (xcrypt Demo.env (Demo.request "a" "b" Demo.key 2) Demo.world).2.log
      = [.acquire .ker_buf,
         .release .infile, .release .outfile, .release .keybuf, .release .ker_buf] := by
  decide

/-! ### C10: Chunked streaming -/

/-- C10: a run that returns 0 need not have stored the transformed units.
The unit-wise transform of the 3-byte payload of `a` has three bytes.  When
every streaming write stores one byte only, the encryption of `a` returns 0
and the destination holds a single byte after the 16-byte tag: the output
unit is shorter than the input unit.  When the first streaming read fails,
the encryption returns 0 as well and the destination holds no payload byte. -/
theorem returned_zero_payload_not_unitwise :
    transformUnits (transform_chunk Demo.env 1 Demo.key) [10, 20, 30] = [132, 154, 144] ∧
    (xcrypt { Demo.env with writeRes := fun _ => .short 1 }
      (encryptRequest "a" "b" Demo.key 16) Demo.world).1 = 0 ∧
    ((xcrypt { Demo.env with writeRes := fun _ => .short 1 }
      (encryptRequest "a" "b" Demo.key 16) Demo.world).2.fs "b").map
        (fun n => n.data.drop AES_BLOCK_SIZE) = some [132] ∧
    (xcrypt { Demo.env with readErr := fun _ => some 4 }
      (encryptRequest "a" "b" Demo.key 16) Demo.world).1 = 0 ∧
    ((xcrypt { Demo.env with readErr := fun _ => some 4 }
      (encryptRequest "a" "b" Demo.key 16) Demo.world).2.fs "b").map
        (fun n => n.data.drop AES_BLOCK_SIZE) = some [] := by
  decide

/-! ### C11: The key beyond its first 16 bytes -/

/-- C11: neither the cipher nor the tag sees the key beyond its first 16
bytes.  Two encryption runs, under the same behaviour of the collaborators,
of sources with the same content `M`, with keys whose first 16 bytes agree,
both returning 0: the two destinations are identical from byte offset 16 to
the end.  Their first 16 bytes are the digest of the first key byte, not of
all `keylen` bytes, so the two destinations hold the same bytes
throughout. -/
theorem key_tail_reaches_neither_payload_nor_tag (env : Env) (w1 w2 : World)
    (s1 d1 s2 d2 : String) (K1 K2 : List Byte) (l1 l2 : Nat) (M : List Byte)
    (hM1 : (w1.fs s1).map Inode.data = some M) (hM2 : (w2.fs s2).map Inode.data = some M)
    (hK : (K1.take l1).take AES_BLOCK_SIZE = (K2.take l2).take AES_BLOCK_SIZE)
    (h1 : (xcrypt env (encryptRequest s1 d1 K1 l1) w1).1 = 0)
    (h2 : (xcrypt env (encryptRequest s2 d2 K2 l2) w2).1 = 0) :
    AES_BLOCK_SIZE ≤ (K1.take l1).length ∧ AES_BLOCK_SIZE ≤ (K2.take l2).length ∧
    ∃ n1 n2, (xcrypt env (encryptRequest s1 d1 K1 l1) w1).2.fs d1 = some n1 ∧
      (xcrypt env (encryptRequest s2 d2 K2 l2) w2).2.fs d2 = some n2 ∧
      n1.data.drop AES_BLOCK_SIZE = n2.data.drop AES_BLOCK_SIZE ∧
      n1.data.take AES_BLOCK_SIZE = compute_tag env ((K1.take l1).take 1) ∧
      n2.data.take AES_BLOCK_SIZE = compute_tag env ((K2.take l2).take 1) ∧
      n1.data = n2.data := by
  obtain ⟨a1, b1, m1, i1, o1, hacc1, hin1, hout1, hdata1⟩ :=
    xcrypt_zero_enc env _ w1 rfl h1
  obtain ⟨a2, b2, m2, i2, o2, hacc2, hin2, hout2, hdata2⟩ :=
    xcrypt_zero_enc env _ w2 rfl h2
  have e1 : s1 = a1 := Option.some.inj hacc1.infile
  have e2 : d1 = b1 := Option.some.inj hacc1.outfile
  have e3 : K1 = m1 := Option.some.inj hacc1.keybuf
  have e4 : s2 = a2 := Option.some.inj hacc2.infile
  have e5 : d2 = b2 := Option.some.inj hacc2.outfile
  have e6 : K2 = m2 := Option.some.inj hacc2.keybuf
  subst e1 e2 e3 e4 e5 e6
  have hi1 : i1.data = M := by
    rw [hin1] at hM1
    exact Option.some.inj hM1
  have hi2 : i2.data = M := by
    rw [hin2] at hM2
    exact Option.some.inj hM2
  have hk1 : AES_BLOCK_SIZE ≤ l1 := hacc1.keylen_ge
  have hk2 : AES_BLOCK_SIZE ≤ l2 := hacc2.keylen_ge
  have hr1 : l1 ≤ K1.length := hacc1.readable
  have hr2 : l2 ≤ K2.length := hacc2.readable
  have hK' : K1.take AES_BLOCK_SIZE = K2.take AES_BLOCK_SIZE := by
    rw [List.take_take, List.take_take, Nat.min_eq_left hk1, Nat.min_eq_left hk2] at hK
    exact hK
  have hb1 : (K1.take l1).take 1 = K1.take 1 := by
    rw [List.take_take, Nat.min_eq_left (Nat.le_trans (by decide) hk1)]
  have hb2 : (K2.take l2).take 1 = K2.take 1 := by
    rw [List.take_take, Nat.min_eq_left (Nat.le_trans (by decide) hk2)]
  have hb : K2.take 1 = K1.take 1 := by
    have := congrArg (List.take 1) hK'
    rw [List.take_take, List.take_take] at this
    exact this.symm
  have ht1 : (compute_tag env (K1.take 1)).length = AES_BLOCK_SIZE := env.P.digest_len _
  have hd1 : o1.data = compute_tag env (K1.take 1)
      ++ stored env (transform_chunk env 1 (K1.take AES_BLOCK_SIZE)) M (M.length + 1) 0 0 := by
    rw [← hi1]
    exact hdata1
  have hd2 : o2.data = compute_tag env (K1.take 1)
      ++ stored env (transform_chunk env 1 (K1.take AES_BLOCK_SIZE)) M (M.length + 1) 0 0 := by
    rw [hK', ← hb, ← hi2]
    exact hdata2
  refine ⟨?_, ?_, o1, o2, hout1, hout2, ?_, ?_, ?_, ?_⟩
  · rw [List.length_take]
    omega
  · rw [List.length_take]
    omega
  · rw [hd1, hd2]
  · rw [hb1, hd1, List.take_left' ht1]
  · rw [hb2, hb, hd2, List.take_left' ht1]
  · rw [hd1, hd2]

/-- C11, on the instance: `a` is encrypted once with the 17-byte key
`key ++ [17]` and once with the 18-byte key `key ++ [99, 98]`.  The digests
of the two keys differ, both runs return 0, and the two destinations hold the
same bytes, the first 16 included. -/
theorem key_tail_reaches_neither_payload_nor_tag_witness :
    ((Demo.key ++ [17]).take 17).take AES_BLOCK_SIZE
      = ((Demo.key ++ [99, 98]).take 18).take AES_BLOCK_SIZE ∧
    (xcrypt Demo.env (encryptRequest "a" "b" (Demo.key ++ [17]) 17) Demo.world).1 = 0 ∧
    (xcrypt Demo.env (encryptRequest "a" "c" (Demo.key ++ [99, 98]) 18) Demo.world).1 = 0 ∧
    compute_tag Demo.env ((Demo.key ++ [17]).take 17)
      ≠ compute_tag Demo.env ((Demo.key ++ [99, 98]).take 18) ∧
    (AES_BLOCK_SIZE ≤ ((Demo.key ++ [17]).take 17).length ∧
      AES_BLOCK_SIZE ≤ ((Demo.key ++ [99, 98]).take 18).length ∧
      ∃ n1 n2,
        (xcrypt Demo.env (encryptRequest "a" "b" (Demo.key ++ [17]) 17) Demo.world).2.fs "b"
          = some n1 ∧
        (xcrypt Demo.env (encryptRequest "a" "c" (Demo.key ++ [99, 98]) 18) Demo.world).2.fs "c"
          = some n2 ∧
        n1.data.drop AES_BLOCK_SIZE = n2.data.drop AES_BLOCK_SIZE ∧
        n1.data.take AES_BLOCK_SIZE
          = compute_tag Demo.env (((Demo.key ++ [17]).take 17).take 1) ∧
        n2.data.take AES_BLOCK_SIZE
          = compute_tag Demo.env (((Demo.key ++ [99, 98]).take 18).take 1) ∧
        n1.data = n2.data) :=
  ⟨by decide, by decide, by decide, by decide,
    key_tail_reaches_neither_payload_nor_tag Demo.env Demo.world Demo.world "a" "b" "a" "c"
      (Demo.key ++ [17]) (Demo.key ++ [99, 98]) 17 18 [10, 20, 30] (by decide) (by decide)
      (by decide) (by decide) (by decide)⟩

end Xcrypt
